import Mathlib

/-!
Verification development for the `par` session/workspace state engine.

The Python source under `src/par/` is shallowly embedded: filesystem paths
become lists of components, the JSON dictionaries holding tracked records
become association lists, and every call into git / tmux / the filesystem
becomes an explicit event in a trace, so that "performs no external side
effect" is the statement "the event trace is empty".
-/

namespace Par

/-- A filesystem path, as its list of components from the root
(`Path("/a/b")` becomes `["a", "b"]`). -/
abbrev PathT := List String

/-- `pathlib.Path.parents` membership: `d in p.parents` holds exactly when
`d` is a proper ancestor of `p`, i.e. a strict prefix of its components. -/
def inParents (d p : PathT) : Prop := d <+: p ∧ d ≠ p

instance (d p : PathT) : Decidable (inParents d p) := by
  unfold inParents; infer_instance

/-! ### Association lists standing in for Python dicts -/

variable {κ : Type} [DecidableEq κ] {α : Type}

/-- Lookup in a Python dict modelled as an association list. -/
def getA (l : List (κ × α)) (k : κ) : Option α :=
  (l.find? (fun p => decide (p.1 = k))).map (·.2)

/-- Python dict assignment `d[k] = v`: any previous binding of `k` is
replaced. -/
def setA (l : List (κ × α)) (k : κ) (v : α) : List (κ × α) :=
  (k, v) :: l.filter (fun p => decide (p.1 ≠ k))

/-- Python dict deletion `del d[k]` (a no-op when `k` is absent, matching
the guarded `if label in state` deletions in the source). -/
def delA (l : List (κ × α)) (k : κ) : List (κ × α) :=
  l.filter (fun p => decide (p.1 ≠ k))

/-- The key set of a dict. -/
def keysA (l : List (κ × α)) : List κ :=
  l.map Prod.fst

@[simp] theorem getA_nil (k : κ) : getA ([] : List (κ × α)) k = none := rfl

@[simp] theorem getA_cons (p : κ × α) (l : List (κ × α)) (k : κ) :
    getA (p :: l) k = if p.1 = k then some p.2 else getA l k := by
  by_cases h : p.1 = k <;>
    simp [getA, List.find?_cons, h]

theorem getA_eq_none_of_not_mem_keys {l : List (κ × α)} {k : κ}
    (h : k ∉ keysA l) : getA l k = none := by
  induction l with
  | nil => rfl
  | cons p t ih =>
    simp only [keysA, List.map_cons, List.mem_cons, not_or] at h
    simp [getA_cons, Ne.symm h.1, ih (by simpa [keysA] using h.2)]

theorem mem_keys_of_getA_eq_some {l : List (κ × α)} {k : κ} {v : α}
    (h : getA l k = some v) : k ∈ keysA l := by
  by_contra hk
  rw [getA_eq_none_of_not_mem_keys hk] at h
  exact Option.noConfusion h

/-- When the key is fresh, dict assignment is a plain cons. -/
theorem setA_eq_cons_of_not_mem {l : List (κ × α)} {k : κ}
    (h : k ∉ keysA l) (v : α) : setA l k v = (k, v) :: l := by
  unfold setA
  congr 1
  induction l with
  | nil => rfl
  | cons p t ih =>
    simp only [keysA, List.map_cons, List.mem_cons, not_or] at h
    simp only [List.filter_cons]
    rw [if_pos (by simpa using Ne.symm h.1)]
    rw [ih (by simpa [keysA] using h.2)]

/-- Lookup after deletion. -/
@[simp] theorem getA_delA (l : List (κ × α)) (k k' : κ) :
    getA (delA l k) k' = if k = k' then none else getA l k' := by
  induction l with
  | nil => by_cases h : k = k' <;> simp [delA, h]
  | cons p t ih =>
    by_cases hp : p.1 = k
    · have hstep : delA (p :: t) k = delA t k := by
        simp [delA, List.filter_cons, hp]
      rw [hstep, ih]
      by_cases h : k = k'
      · simp [h]
      · rw [if_neg h, if_neg h, getA_cons, if_neg (by rw [hp]; exact h)]
    · have hstep : delA (p :: t) k = p :: delA t k := by
        simp [delA, List.filter_cons, hp]
      rw [hstep, getA_cons]
      by_cases hk' : p.1 = k'
      · have h : ¬ k = k' := fun e => hp (e ▸ hk')
        rw [if_pos hk', if_neg h, getA_cons, if_pos hk']
      · rw [if_neg hk', ih]
        by_cases h : k = k'
        · simp [h]
        · rw [if_neg h, if_neg h, getA_cons, if_neg hk']

/-- Lookup after assignment: the new binding at the assigned key,
everything else unchanged. -/
@[simp] theorem getA_setA (l : List (κ × α)) (k k' : κ) (v : α) :
    getA (setA l k v) k' = if k = k' then some v else getA l k' := by
  show getA ((k, v) :: delA l k) k' = _
  rw [getA_cons]
  by_cases h : k = k'
  · simp [h]
  · rw [if_neg h, if_neg h, getA_delA, if_neg h]

/-! ### Checkout strategy resolver (src/par/checkout.py)

`checkout.py` is imported by `core.py` and `operations.py` but the file
itself is not present under `src/`; only its `CheckoutStrategy` shape
(fields `ref`, `is_pr`, `remote`, `fetch_remote`) is visible at the call
sites and in the tests. -/

/-- The structured plan produced by the resolver. Field shapes follow the
uses in `operations.checkout_worktree` and `test_core.py`. -/
structure CheckoutStrategy where
  ref : String
  is_pr : Bool
  remote : String
  fetch_remote : Bool
  deriving DecidableEq, Repr

/-- Valid characters of a branch name, per
`Config.VALID_BRANCH_NAME_PATTERN = r"^[a-zA-Z0-9_./%-]+$"`. -/
def isBranchChar (c : Char) : Bool :=
  c.isAlphanum || c = '_' || c = '.' || c = '/' || c = '%' || c = '-'

/-- A non-empty character sequence all of whose characters are allowed in
branch names. -/
def validBranchChars (l : List Char) : Bool :=
  !l.isEmpty && l.all isBranchChar

/-- A non-empty string all of whose characters are allowed in branch
names. -/
def validBranchName (s : String) : Bool :=
  validBranchChars s.data

/-- Split a character list at every occurrence of a separator character
(`str.split(sep)` / `str.splitOn`, at the character level). -/
def splitOnChar (c : Char) : List Char → List (List Char)
  | [] => [[]]
  | x :: xs =>
    match splitOnChar c xs with
    | [] => [[]]
    | h :: t => if x = c then [] :: h :: t else (x :: h) :: t

/-- The digit run following the first `/pull/` infix of a URL, if any. -/
def digitsAfterPull : List Char → Option (List Char)
  | [] => none
  | c :: rest =>
    if "/pull/".data.isPrefixOf (c :: rest) then
      let n := ((c :: rest).drop 6).takeWhile Char.isDigit
      if n.isEmpty then none else some n
    else digitsAfterPull rest

/-- Modelled from the spec: the numeric pull-request id recognised in a
target, grammar 1 of §4.3 — `pr/<number>` or a pull-request URL containing
a numeric id (the concrete resolver in `checkout.py` is missing from
`src/`). -/
def prNumberOf (target : String) : Option String :=
  if "pr/".data.isPrefixOf target.data then
    let n := target.data.drop 3
    if !n.isEmpty && n.all Char.isDigit then some (String.mk n) else none
  else if "http://".data.isPrefixOf target.data
      || "https://".data.isPrefixOf target.data then
    (digitsAfterPull target.data).map String.mk
  else none

/-- Error cases of the resolver: an empty target, or forbidden characters. -/
inductive ParseErr where
  | emptyTarget
  | invalidChars
  deriving DecidableEq, Repr

/-- Modelled from the spec: `parse_checkout_target` of the missing
`checkout.py`, following §4.3 — pure parsing of a user-supplied target into
`(branchName, CheckoutStrategy)`, grammars tried in priority order
(PR form, then `<user>:<branch>`, then plain branch name), with the
default remote `origin`; an empty target or forbidden characters fail, and
the resolver never guesses a fallback meaning. -/
def parse_checkout_target (target : String) :
    Except ParseErr (String × CheckoutStrategy) :=
  if target = "" then .error .emptyTarget
  else
    match prNumberOf target with
    | some n =>
      .ok ("pr-" ++ n,
        { ref := "origin/pull/" ++ n ++ "/head", is_pr := true,
          remote := "origin", fetch_remote := false })
    | none =>
      match splitOnChar ':' target.data with
      | [user, branch] =>
        if validBranchChars user && validBranchChars branch then
          .ok (String.mk branch,
            { ref := String.mk branch, is_pr := false,
              remote := String.mk user, fetch_remote := true })
        else .error .invalidChars
      | _ =>
        if validBranchName target then
          .ok (target,
            { ref := target, is_pr := false, remote := "origin",
              fetch_remote := false })
        else .error .invalidChars

/-! ### External side effects as events -/

/-- One call into the version-control / multiplexer / filesystem
interfaces. An operation "performs no external side effect" exactly when
its event trace is empty. -/
inductive Event where
  | mkdirParents (p : PathT)
  | createWorktree (branch : String) (wp : PathT) (repo : PathT)
  | checkoutWorktreeE (ref : String) (wp : PathT) (repo : PathT)
  | fetch (remote : String) (ref : String) (repo : PathT)
  | createTmuxSession (name : String) (cwd : PathT)
  | killTmuxSession (name : String)
  | removeWorktree (wp : PathT) (repo : PathT)
  | deleteBranch (branch : String) (repo : PathT)
  | rmtree (p : PathT)
  | copyIncludedFiles (repo : PathT) (wp : PathT)
  | runInit (sessionName : String) (wp : PathT)
  | attachTmux (name : String)
  deriving DecidableEq, Repr

/-- The external world an invocation reads: filesystem and tmux probes,
the resolved repository root, the data directory, and the SHA-256 derived
8-character hash prefix of `utils._get_repo_id` (collision resistance is
abstracted into the function itself). All probes are read-only. -/
structure Env where
  dataDir : PathT
  cwd : PathT
  pathExists : PathT → Bool
  tmuxHas : String → Bool
  hash8 : PathT → String
  hasParConfig : PathT → Bool
  detectGitRepos : PathT → List PathT
  repoRootOf : Option PathT → PathT
  rmtreeFails : PathT → Bool

/-! ### Tracked records (src/par/core.py session data dicts) -/

/-- `session_type` values stored in the record dicts. -/
inductive SessionType where
  | session
  | checkout
  | workspace
  deriving DecidableEq, Repr

/-- One member entry of `workspace_repos`. -/
structure WorkspaceRepoEntry where
  repo_name : String
  repo_path : PathT
  worktree_path : PathT
  branch_name : String
  deriving DecidableEq, Repr, Inhabited

/-- A tracked record as built in `start_session` / `checkout_session` /
`start_workspace_session` (the `created_at` timestamp is omitted: no
operation ever branches on it). -/
structure SessionRecord where
  label : String
  repository_path : PathT
  repository_name : String
  worktree_path : PathT
  tmux_session_name : String
  branch_name : String
  session_type : SessionType
  checkout_target : Option String := none
  workspace_repos : List WorkspaceRepoEntry := []
  deriving DecidableEq, Repr

/-- The document of `global_state.json`: the `sessions` and `workspaces`
dicts plus the two-slot open history. -/
structure GlobalState where
  sessions : List (String × SessionRecord)
  workspaces : List (String × SessionRecord)
  last_session : Option String := none
  previous_session : Option String := none
  deriving DecidableEq, Repr

/-- The empty document `{"sessions": {}, "workspaces": {}}`. -/
def freshGlobalState : GlobalState := { sessions := [], workspaces := [] }

/-! ### Identity & naming (src/par/utils.py) -/

/-- `Path.name`: the last path component. -/
def nameOf (p : PathT) : String := p.getLast?.getD ""

/-- `utils.get_worktree_path`: `{data-dir}/worktrees/{repo-id}/{label}`.
(The function also mkdirs the per-repo worktrees directory; that side
effect is emitted by the callers in this model.) -/
def get_worktree_path (env : Env) (repo_root : PathT) (label : String) : PathT :=
  env.dataDir ++ ["worktrees", env.hash8 repo_root, label]

/-- The directory `utils.get_worktree_path` creates as a side effect. -/
def worktreesDirOf (env : Env) (repo_root : PathT) : PathT :=
  env.dataDir ++ ["worktrees", env.hash8 repo_root]

/-- The sanitisation of `utils.get_tmux_session_name`: lowercase, replace
spaces and dots by hyphens, truncate to 15 characters. -/
def sanitizeRepoName (s : String) : String :=
  String.mk
    (((s.data.map Char.toLower).map
        (fun c => if c = ' ' ∨ c = '.' then '-' else c)).take 15)

/-- `utils.get_tmux_session_name`:
`par-{sanitized repo name, 15 chars}-{4-char hash}-{label}`. -/
def get_tmux_session_name (env : Env) (repo_root : PathT) (label : String) : String :=
  "par-" ++ sanitizeRepoName (nameOf repo_root) ++ "-"
    ++ String.mk ((env.hash8 repo_root).data.take 4) ++ "-" ++ label

/-- `utils.get_workspace_session_name` (absent from `src/`; shape fixed by
`test_utils.test_get_workspace_session_name`):
`par-ws-{workspace name, 15 chars}-{4-char hash}-{label}`. -/
def get_workspace_session_name (env : Env) (workspace_root : PathT) (label : String) : String :=
  "par-ws-" ++ String.mk ((nameOf workspace_root).data.take 15) ++ "-"
    ++ String.mk ((env.hash8 workspace_root).data.take 4) ++ "-" ++ label

/-- `utils.get_workspace_worktree_path` (absent from `src/`; shape fixed by
`test_utils.test_get_workspace_worktree_path`):
`{data-dir}/workspaces/{workspace-id}/{label}/{repo-name}`. -/
def get_workspace_worktree_path (env : Env) (workspace_root : PathT)
    (label repo_name : String) : PathT :=
  env.dataDir ++ ["workspaces", env.hash8 workspace_root, label, repo_name]

/-! ### Global state helpers (src/par/core.py) -/

/-- `core._validate_label_unique`: the label is in neither the `sessions`
nor the `workspaces` dict. -/
def validate_label_unique (st : GlobalState) (label : String) : Prop :=
  label ∉ keysA st.sessions ∧ label ∉ keysA st.workspaces

instance (st : GlobalState) (label : String) :
    Decidable (validate_label_unique st label) := by
  unfold validate_label_unique; infer_instance

/-- `core._add_session`: `state["sessions"][data["label"]] = data`. -/
def addSession (st : GlobalState) (s : SessionRecord) : GlobalState :=
  { st with sessions := setA st.sessions s.label s }

/-- `core._remove_session`: delete the label from the `sessions` dict. -/
def delSession (st : GlobalState) (label : String) : GlobalState :=
  { st with sessions := delA st.sessions label }

/-- `core._update_last_session`: rotate the two-slot open history. -/
def update_last_session (st : GlobalState) (label : String) : GlobalState :=
  let prev :=
    match st.last_session with
    | some cur => if cur ≠ label then some cur else st.previous_session
    | none => st.previous_session
  { st with previous_session := prev, last_session := some label }

/-- Result of one command invocation: the persisted state afterwards, the
external side effects performed, and whether the command exited with an
error (`typer.Exit`). -/
structure OpResult where
  state : GlobalState
  events : List Event
  outcome : Bool
  deriving DecidableEq, Repr

/-! ### Session creation (core.start_session, core.checkout_session) -/

/-- `core.start_session`. -/
def start_session (env : Env) (st : GlobalState) (label : String)
    (repo_path : Option PathT) (open_session : Bool) : OpResult :=
  if ¬ validate_label_unique st label then ⟨st, [], false⟩
  else
    let repo_root := env.repoRootOf repo_path
    let repo_name := nameOf repo_root
    let worktree_path := get_worktree_path env repo_root label
    let session_name := get_tmux_session_name env repo_root label
    let evs0 := [Event.mkdirParents (worktreesDirOf env repo_root)]
    if env.pathExists worktree_path then ⟨st, evs0, false⟩
    else if env.tmuxHas session_name then ⟨st, evs0, false⟩
    else
      let evs1 := evs0 ++
        [Event.createWorktree label worktree_path repo_root,
         Event.createTmuxSession session_name worktree_path]
      let evs2 := evs1 ++
        (if env.hasParConfig repo_root then
          [Event.copyIncludedFiles repo_root worktree_path,
           Event.runInit session_name worktree_path]
        else [])
      let record : SessionRecord :=
        { label := label, repository_path := repo_root,
          repository_name := repo_name, worktree_path := worktree_path,
          tmux_session_name := session_name, branch_name := label,
          session_type := .session }
      if open_session then
        ⟨update_last_session (addSession st record) label,
          evs2 ++ [Event.attachTmux session_name], true⟩
      else ⟨addSession st record, evs2, true⟩

/-- `operations.checkout_worktree`: the git calls materialising a worktree
from an existing ref, PR head, or remote branch. -/
def checkout_worktree_events (worktree_path : PathT)
    (strategy : CheckoutStrategy) (repo_root : PathT) : List Event :=
  if strategy.is_pr then
    let pr_number := ((strategy.ref.splitOn "/").drop 2).headD ""
    [Event.fetch strategy.remote ("pull/" ++ pr_number ++ "/head") repo_root,
     Event.checkoutWorktreeE "FETCH_HEAD" worktree_path repo_root]
  else if strategy.fetch_remote then
    [Event.fetch strategy.remote "" repo_root,
     Event.checkoutWorktreeE strategy.ref worktree_path repo_root]
  else
    [Event.checkoutWorktreeE strategy.ref worktree_path repo_root]

/-- `core.checkout_session`. -/
def checkout_session (env : Env) (st : GlobalState) (target : String)
    (custom_label : Option String) (repo_path : Option PathT) : OpResult :=
  match parse_checkout_target target with
  | .error _ => ⟨st, [], false⟩
  | .ok (branch_name, strategy) =>
    let label := custom_label.getD branch_name
    if ¬ validate_label_unique st label then ⟨st, [], false⟩
    else
      let repo_root := env.repoRootOf repo_path
      let repo_name := nameOf repo_root
      let worktree_path := get_worktree_path env repo_root label
      let session_name := get_tmux_session_name env repo_root label
      let evs0 := [Event.mkdirParents (worktreesDirOf env repo_root)]
      if env.pathExists worktree_path then ⟨st, evs0, false⟩
      else if env.tmuxHas session_name then ⟨st, evs0, false⟩
      else
        let evs1 := evs0 ++
          checkout_worktree_events worktree_path strategy repo_root ++
          [Event.createTmuxSession session_name worktree_path]
        let evs2 := evs1 ++
          (if env.hasParConfig repo_root then
            [Event.copyIncludedFiles repo_root worktree_path,
             Event.runInit session_name worktree_path]
          else [])
        let record : SessionRecord :=
          { label := label, repository_path := repo_root,
            repository_name := repo_name, worktree_path := worktree_path,
            tmux_session_name := session_name, branch_name := branch_name,
            session_type := .checkout, checkout_target := some target }
        ⟨addSession st record, evs2, true⟩

/-! ### Session removal (core.remove_session and helpers) -/

/-- `core._remove_regular_session`: kill the tmux session, remove the
worktree, delete the branch unless the record is a checkout, and remove
the physical directory when it exists and lies under par's data
directory. Every step is best-effort. -/
def remove_regular_session_events (env : Env) (s : SessionRecord) : List Event :=
  [Event.killTmuxSession s.tmux_session_name,
   Event.removeWorktree s.worktree_path s.repository_path]
  ++ (if s.session_type ≠ .checkout then
        [Event.deleteBranch s.branch_name s.repository_path]
      else [])
  ++ (if env.pathExists s.worktree_path ∧ inParents env.dataDir s.worktree_path then
        [Event.rmtree s.worktree_path]
      else [])

/-- `core._remove_workspace_session`: kill the tmux session, remove each
member worktree and branch, and remove the workspace directory when it
lies under par's data directory. -/
def remove_workspace_session_events (env : Env) (s : SessionRecord) : List Event :=
  Event.killTmuxSession s.tmux_session_name ::
  (s.workspace_repos.flatMap (fun r =>
    [Event.removeWorktree r.worktree_path r.repo_path,
     Event.deleteBranch r.branch_name r.repo_path]))
  ++ (if env.pathExists s.repository_path ∧ inParents env.dataDir s.repository_path then
        [Event.rmtree s.repository_path]
      else [])

/-- `core.remove_session`: a tracked record is torn down and deleted; an
untracked label prints an error and raises `typer.Exit(1)` with no
teardown performed. -/
def remove_session (env : Env) (st : GlobalState) (label : String) : OpResult :=
  match getA st.sessions label with
  | none => ⟨st, [], false⟩
  | some s =>
    let evs :=
      if s.session_type = .workspace then remove_workspace_session_events env s
      else remove_regular_session_events env s
    ⟨delSession st label, evs, true⟩

/-- Legacy `src/src/actions.py remove_session_action`: when no record is
tracked for the label, it still attempts stale cleanup of the
conventionally named tmux session, worktree path and branch. -/
def remove_session_action (env : Env) (st : GlobalState) (label : String) : OpResult :=
  let repo_root := env.repoRootOf none
  match getA st.sessions label with
  | none =>
    ⟨st,
     [Event.killTmuxSession (get_tmux_session_name env repo_root label),
      Event.removeWorktree (get_worktree_path env repo_root label) repo_root,
      Event.deleteBranch label repo_root],
     true⟩
  | some _ => ⟨st, [], true⟩

/-! ### Workspace creation (src/par/workspace.py) -/

/-- A repository argument of `start_workspace_session`: an absolute path,
or a name relative to the workspace root (the source distinguishes the
two by `repo_spec.startswith('/') or Path(repo_spec).is_absolute()`). -/
inductive RepoSpec where
  | abs (p : PathT)
  | rel (name : String)
  deriving DecidableEq, Repr

/-- Name and resolved path of one repository argument. -/
def repoSpecTarget (workspace_root : PathT) : RepoSpec → String × PathT
  | .abs p => (nameOf p, p)
  | .rel n => (n, workspace_root ++ [n])

/-- The explicit-repository validation loop: every named repository must
exist and carry a `.git` marker; the first failure aborts (before any
side effect). -/
def resolveRepoSpecs (env : Env) (workspace_root : PathT) :
    List RepoSpec → Option (List (String × PathT))
  | [] => some []
  | s :: rest =>
    let t := repoSpecTarget workspace_root s
    if env.pathExists t.2 && env.pathExists (t.2 ++ [".git"]) then
      (resolveRepoSpecs env workspace_root rest).map (fun l => t :: l)
    else none

/-- The per-member worktree creation loop of `start_workspace_session`:
for each member, derive the worktree path (mkdir of its parents is a side
effect of the derivation), abort if it already exists, otherwise create
the worktree and copy the include files. `none` means the loop raised
`typer.Exit` at the first member whose worktree path pre-existed; the
accompanying trace holds the side effects already performed. -/
def create_workspace_worktrees (env : Env) (workspace_root : PathT) (label : String) :
    List (String × PathT) → Option (List WorkspaceRepoEntry) × List Event
  | [] => (some [], [])
  | m :: rest =>
    let wtp := get_workspace_worktree_path env workspace_root label m.1
    let evs0 := [Event.mkdirParents wtp.dropLast]
    if env.pathExists wtp then (none, evs0)
    else
      let created :=
        Event.createWorktree label wtp m.2 ::
        (if env.hasParConfig m.2 then [Event.copyIncludedFiles m.2 wtp] else [])
      match create_workspace_worktrees env workspace_root label rest with
      | (none, evs) => (none, evs0 ++ created ++ evs)
      | (some entries, evs) =>
        (some ({ repo_name := m.1, repo_path := m.2, worktree_path := wtp,
                 branch_name := label } :: entries),
         evs0 ++ created ++ evs)

/-- `workspace.start_workspace_session`. The `open_session` branch
delegates to `core.open_session` on the freshly persisted label, which
finds it in the `sessions` dict. -/
def start_workspace_session (env : Env) (st : GlobalState) (label : String)
    (workspace_path : Option PathT) (repos : Option (List RepoSpec))
    (open_session : Bool) : OpResult :=
  if ¬ validate_label_unique st label then ⟨st, [], false⟩
  else
    let workspace_root? : Option PathT :=
      match workspace_path with
      | some p => if env.pathExists p then some p else none
      | none => some env.cwd
    match workspace_root? with
    | none => ⟨st, [], false⟩
    | some workspace_root =>
      let members? : Option (List (String × PathT)) :=
        match repos with
        | none =>
          let d := env.detectGitRepos workspace_root
          if d = [] then none else some (d.map (fun p => (nameOf p, p)))
        | some [] =>
          let d := env.detectGitRepos workspace_root
          if d = [] then none else some (d.map (fun p => (nameOf p, p)))
        | some specs => resolveRepoSpecs env workspace_root specs
      match members? with
      | none => ⟨st, [], false⟩
      | some members =>
        let session_name := get_workspace_session_name env workspace_root label
        if env.tmuxHas session_name then ⟨st, [], false⟩
        else
          match create_workspace_worktrees env workspace_root label members with
          | (none, evs) => ⟨st, evs, false⟩
          | (some entries, evs) =>
            let ws_root := ((entries.headD default).worktree_path).dropLast.dropLast
            let evs2 := evs ++ [Event.createTmuxSession session_name ws_root] ++
              entries.flatMap (fun e =>
                if env.hasParConfig e.repo_path then
                  [Event.runInit session_name e.worktree_path]
                else [])
            let record : SessionRecord :=
              { label := label, repository_path := ws_root,
                repository_name := "workspace-" ++ label,
                worktree_path := ws_root, tmux_session_name := session_name,
                branch_name := label, session_type := .workspace,
                workspace_repos := entries }
            let st' := addSession st record
            if open_session then
              ⟨update_last_session st' label,
                evs2 ++
                  (if ¬ env.tmuxHas session_name then
                    [Event.createTmuxSession session_name ws_root]
                  else []) ++
                  [Event.attachTmux session_name], true⟩
            else ⟨st', evs2, true⟩

/-! ### Command sequences -/

/-- One creation command of the engine. -/
inductive Cmd where
  | start (label : String) (repo_path : Option PathT) (open_session : Bool)
  | checkout (target : String) (custom_label : Option String) (repo_path : Option PathT)
  | workspaceStart (label : String) (workspace_path : Option PathT)
      (repos : Option (List RepoSpec)) (open_session : Bool)
  deriving DecidableEq, Repr

/-- Dispatch one command. -/
def applyCmd (env : Env) (st : GlobalState) : Cmd → OpResult
  | .start l rp o => start_session env st l rp o
  | .checkout t cl rp => checkout_session env st t cl rp
  | .workspaceStart l wp rs o => start_workspace_session env st l wp rs o

/-- Run a sequence of creation commands, threading the persisted state. -/
def runCmds (env : Env) (st : GlobalState) (cmds : List Cmd) : GlobalState :=
  cmds.foldl (fun s c => (applyCmd env s c).state) st

/-- The label a command would track: explicit for `start` and
`workspaceStart`, and the custom label or the parsed branch name for
`checkout` (none when the target fails to parse). -/
def cmdLabel : Cmd → Option String
  | .start l _ _ => some l
  | .checkout t cl _ =>
    match parse_checkout_target t with
    | .ok p => some (cl.getD p.1)
    | .error _ => none
  | .workspaceStart l _ _ _ => some l

/-- All labels currently tracked, of any kind. -/
def trackedLabels (st : GlobalState) : List String :=
  keysA st.sessions ++ keysA st.workspaces

/-! ### Persistence layer (src/par/state_manager.py, core global state file)

The on-disk world is a map from paths to file contents; a write is a
sequence of `FsOp` steps, so "interrupted mid-write" is "only a prefix of
the step list was applied". `json.dump` streams the serialised document
into the open file in pieces, modelled as an arbitrary chunk list whose
concatenation is the serialised text. Directory creation does not affect
file contents and is left out of this map. -/

/-- The filesystem: path ↦ file content. -/
abbrev FS := List (PathT × String)

/-- One on-disk step of a persistence routine. `cacheSet` marks where the
in-memory cache is assigned and is a no-op on the filesystem. -/
inductive FsOp where
  | openTrunc (p : PathT)
  | writeChunk (p : PathT) (s : String)
  | rename (src dst : PathT)
  | copyFile (src dst : PathT)
  | cacheSet
  deriving DecidableEq, Repr

/-- Effect of one step on the filesystem. -/
def applyFsOp (fs : FS) : FsOp → FS
  | .openTrunc p => setA fs p ""
  | .writeChunk p s => setA fs p (((getA fs p).getD "") ++ s)
  | .rename src dst => delA (setA fs dst ((getA fs src).getD "")) src
  | .copyFile src dst => setA fs dst ((getA fs src).getD "")
  | .cacheSet => fs

/-- Effect of a step sequence. -/
def applyFsOps (fs : FS) (ops : List FsOp) : FS :=
  ops.foldl applyFsOp fs

/-- `pathlib.Path.with_suffix`: replace the (final) suffix of the last
component. -/
def withSuffix (p : PathT) (suf : String) : PathT :=
  let name := (nameOf p).data
  let parts := splitOnChar '.' name
  let stem := if parts.length ≤ 1 then name else List.intercalate ['.'] parts.dropLast
  p.dropLast ++ [String.mk (stem ++ suf.data)]

/-- `str.strip()`: remove leading and trailing whitespace. -/
def trimStr (s : String) : String :=
  String.mk
    (((s.data.dropWhile Char.isWhitespace).reverse.dropWhile
        Char.isWhitespace).reverse)

/-- `StateManager.save`: write the whole serialised document to
`state_file.with_suffix('.tmp')` in the same directory, atomically replace
the target, and only then update the in-memory cache. -/
def manager_save_ops (state_file : PathT) (chunks : List String) : List FsOp :=
  let tmp := withSuffix state_file ".tmp"
  FsOp.openTrunc tmp :: chunks.map (FsOp.writeChunk tmp)
    ++ [FsOp.rename tmp state_file, FsOp.cacheSet]

/-- `core._save_global_state`: `open(state_file, "w")` followed by
`json.dump` — the target file is truncated and written in place. -/
def save_global_state_ops (state_file : PathT) (chunks : List String) : List FsOp :=
  FsOp.openTrunc state_file :: chunks.map (FsOp.writeChunk state_file)

/-- The in-memory cache of a `StateManager`: the cached document and the
time it was cached. -/
structure SMCache (Doc : Type) where
  value : Option Doc
  time : Nat
  deriving DecidableEq, Repr

/-- `StateManager.load` reading from disk (cache miss), parameterised over
the JSON parser and the empty document `{}`. A missing file or an
empty-after-strip file yields the empty document; unparsable content
copies the file to the fixed-name `.json.backup` sibling and yields the
empty document — it does not raise. -/
def manager_load_disk {Doc : Type} (parse : String → Option Doc) (emptyDoc : Doc)
    (state_file : PathT) (fs : FS) (now : Nat) :
    Doc × SMCache Doc × List FsOp :=
  match getA fs state_file with
  | none => (emptyDoc, ⟨some emptyDoc, now⟩, [])
  | some raw =>
    let content := trimStr raw
    if content = "" then (emptyDoc, ⟨some emptyDoc, now⟩, [])
    else
      match parse content with
      | some d => (d, ⟨some d, now⟩, [])
      | none =>
        (emptyDoc, ⟨some emptyDoc, now⟩,
         [FsOp.copyFile state_file (withSuffix state_file ".json.backup")])

/-- `StateManager.load`: serve the cache while it is younger than the TTL,
otherwise read from disk. -/
def manager_load {Doc : Type} (parse : String → Option Doc) (emptyDoc : Doc)
    (cache_ttl : Nat) (state_file : PathT) (fs : FS) (cache : SMCache Doc)
    (now : Nat) : Doc × SMCache Doc × List FsOp :=
  match cache.value with
  | some c =>
    if now - cache.time < cache_ttl then (c, cache, [])
    else manager_load_disk parse emptyDoc state_file fs now
  | none => manager_load_disk parse emptyDoc state_file fs now

/-- `core._load_global_state`: read the global state file directly. A
corrupt file prints a warning and yields a fresh document with no backup
and no other on-disk action; a missing file delegates to the legacy-state
migration, abstracted here as the `migrate` argument (its result and its
on-disk actions). The parser is `json.loads` followed by ensuring the
`sessions`/`workspaces` keys, abstracted as `parse`. -/
def load_global_state (parse : String → Option GlobalState)
    (migrate : FS → GlobalState × List FsOp) (state_file : PathT) (fs : FS) :
    GlobalState × List FsOp :=
  match getA fs state_file with
  | none => migrate fs
  | some raw =>
    let content := trimStr raw
    if content = "" then (freshGlobalState, [])
    else
      match parse content with
      | some st => (st, [])
      | none => (freshGlobalState, [])

/-! ### Control-center reconciliation (operations._update_control_center_windows) -/

/-- A live tmux window of the overview session: index and name. -/
abbrev Window := Nat × String

/-- A desired entry: the window name and the working directory it should
be opened with. -/
structure Context where
  name : String
  path : PathT
  deriving DecidableEq, Repr

/-- A window-level tmux call issued by the reconciler. -/
inductive WinEvent where
  | killWindow (sessionName : String) (index : Nat)
  | newWindow (sessionName : String) (name : String) (path : PathT)
  | selectFirst (sessionName : String)
  deriving DecidableEq, Repr

/-- The `current_windows` dict of
`operations._update_control_center_windows`: the enumerated windows are
folded into a name-keyed dict (`current_windows[name] = int(index)`), so
windows with duplicate names collapse and the last index wins. -/
def window_dict (current : List Window) : List (String × Nat) :=
  current.foldl (fun d w => setA d w.2 w.1) []

/-- `operations._update_control_center_windows`, given that enumerating
the current windows succeeded: close every *dict entry* whose name is not
desired (at most one kill per name, aimed at that name's surviving
index), then create a window for every desired name not among the dict's
keys (`existing_names = set(current_windows.keys())`), then select the
first window. Windows present on both sides are not touched. -/
def update_control_center_windows (session_name : String)
    (current : List Window) (contexts : List Context) : List WinEvent :=
  let current_windows := window_dict current
  let expectedNames := contexts.map Context.name
  let kills := (current_windows.filter (fun p => !(decide (p.1 ∈ expectedNames)))).map
    (fun p => WinEvent.killWindow session_name p.2)
  let existingNames := keysA current_windows
  let news := (contexts.filter (fun c => !(decide (c.name ∈ existingNames)))).map
    (fun c => WinEvent.newWindow session_name c.name c.path)
  kills ++ news ++
    (if contexts.isEmpty then [] else [WinEvent.selectFirst session_name])

/-- The index tmux assigns to a newly created window: above every existing
index. -/
def freshIndex (ws : List Window) : Nat :=
  (ws.map Prod.fst).foldr max 0 + 1

/-- Effect of one window event on the overview session's window list. -/
def applyWinEvent (ws : List Window) : WinEvent → List Window
  | .killWindow _ i => ws.filter (fun w => !(decide (w.1 = i)))
  | .newWindow _ n _ => ws ++ [(freshIndex ws, n)]
  | .selectFirst _ => ws

/-- Effect of a window event sequence. -/
def applyWinEvents (ws : List Window) (evs : List WinEvent) : List Window :=
  evs.foldl applyWinEvent ws

/-! ### Sample fixtures used by witnesses -/

/-- A concrete environment: empty filesystem and tmux server, fixed data
directory and hash. -/
def sampleEnv : Env where
  dataDir := ["home", "u", ".local", "share", "par"]
  cwd := ["home", "u", "proj"]
  pathExists := fun _ => false
  tmuxHas := fun _ => false
  hash8 := fun _ => "abcd1234"
  hasParConfig := fun _ => false
  detectGitRepos := fun _ => []
  repoRootOf := fun _ => ["home", "u", "proj"]
  rmtreeFails := fun _ => false

/-- A tracked plain session record. -/
def sampleSession : SessionRecord where
  label := "feat-a"
  repository_path := ["home", "u", "proj"]
  repository_name := "proj"
  worktree_path := ["home", "u", ".local", "share", "par", "worktrees", "abcd1234", "feat-a"]
  tmux_session_name := "par-proj-abcd-feat-a"
  branch_name := "feat-a"
  session_type := .session

/-- A tracked checkout record. -/
def sampleCheckout : SessionRecord where
  label := "co-1"
  repository_path := ["home", "u", "proj"]
  repository_name := "proj"
  worktree_path := ["home", "u", ".local", "share", "par", "worktrees", "abcd1234", "co-1"]
  tmux_session_name := "par-proj-abcd-co-1"
  branch_name := "develop"
  session_type := .checkout
  checkout_target := some "develop"

/-- A tracked workspace record with two member repositories. -/
def sampleWorkspace : SessionRecord where
  label := "ws-1"
  repository_path := ["home", "u", ".local", "share", "par", "workspaces", "abcd1234"]
  repository_name := "workspace-ws-1"
  worktree_path := ["home", "u", ".local", "share", "par", "workspaces", "abcd1234"]
  tmux_session_name := "par-ws-mono-abcd-ws-1"
  branch_name := "ws-1"
  session_type := .workspace
  workspace_repos :=
    [{ repo_name := "front", repo_path := ["home", "u", "mono", "front"],
       worktree_path := ["home", "u", ".local", "share", "par", "workspaces", "abcd1234", "ws-1", "front"],
       branch_name := "ws-1" },
     { repo_name := "back", repo_path := ["home", "u", "mono", "back"],
       worktree_path := ["home", "u", ".local", "share", "par", "workspaces", "abcd1234", "ws-1", "back"],
       branch_name := "ws-1" }]

/-- A state tracking all three kinds of record. -/
def sampleState : GlobalState where
  sessions :=
    [("feat-a", sampleSession), ("co-1", sampleCheckout), ("ws-1", sampleWorkspace)]
  workspaces := []

/-! ### C9 — checkout-target parsing -/

/-- C9: the resolver maps `pr/123` to a PR strategy for PR 123
(`origin/pull/123/head`), `alice:feature-x` to a remote-branch strategy
with remote `alice` and ref `feature-x` fetched eagerly, `develop` to a
plain local-branch strategy with no remote fetch, rejects the empty
string, and — for *every* target that is empty or contains a character
forbidden in branch names — either fails with a validation error or was
recognised by one of the two higher-priority grammars (a PR reference,
or `user:branch` with both parts themselves valid): it never guesses a
fallback meaning for a forbidden-character target. -/
theorem checkout_target_parsing :
    parse_checkout_target "pr/123" =
      .ok ("pr-123",
        { ref := "origin/pull/123/head", is_pr := true, remote := "origin",
          fetch_remote := false }) ∧
    parse_checkout_target "alice:feature-x" =
      .ok ("feature-x",
        { ref := "feature-x", is_pr := false, remote := "alice",
          fetch_remote := true }) ∧
    parse_checkout_target "develop" =
      .ok ("develop",
        { ref := "develop", is_pr := false, remote := "origin",
          fetch_remote := false }) ∧
    parse_checkout_target "" = .error .emptyTarget ∧
    (∀ target : String, validBranchName target = false →
      parse_checkout_target target = .error ParseErr.emptyTarget ∨
      parse_checkout_target target = .error ParseErr.invalidChars ∨
      (∃ n, prNumberOf target = some n ∧
        parse_checkout_target target =
          .ok ("pr-" ++ n,
            { ref := "origin/pull/" ++ n ++ "/head", is_pr := true,
              remote := "origin", fetch_remote := false })) ∨
      (∃ user branch, splitOnChar ':' target.data = [user, branch] ∧
        validBranchChars user = true ∧ validBranchChars branch = true ∧
        parse_checkout_target target =
          .ok (String.mk branch,
            { ref := String.mk branch, is_pr := false,
              remote := String.mk user, fetch_remote := true }))) := by
  refine ⟨rfl, rfl, rfl, rfl, ?_⟩
  intro target hbad
  unfold parse_checkout_target
  by_cases hemp : target = ""
  · rw [if_pos hemp]
    exact Or.inl rfl
  · rw [if_neg hemp]
    cases hpr : prNumberOf target with
    | some n =>
      exact Or.inr (Or.inr (Or.inl ⟨n, rfl, rfl⟩))
    | none =>
      dsimp only
      cases hsp : splitOnChar ':' target.data with
      | nil =>
        dsimp only
        rw [hbad]
        exact Or.inr (Or.inl (by rw [if_neg (by simp)]))
      | cons u t =>
        cases t with
        | nil =>
          dsimp only
          rw [hbad]
          exact Or.inr (Or.inl (by rw [if_neg (by simp)]))
        | cons b t2 =>
          cases t2 with
          | nil =>
            dsimp only
            by_cases hv : (validBranchChars u && validBranchChars b) = true
            · rw [if_pos hv]
              rw [Bool.and_eq_true] at hv
              exact Or.inr (Or.inr (Or.inr ⟨u, b, rfl, hv.1, hv.2, rfl⟩))
            · rw [if_neg hv]
              exact Or.inr (Or.inl rfl)
          | cons c t3 =>
            dsimp only
            rw [hbad]
            exact Or.inr (Or.inl (by rw [if_neg (by simp)]))

/-- C9 witness: the universal forbidden-character clause evaluated at the
concrete target `bad name!` (space and `!` are forbidden). -/
theorem checkout_target_parsing_witness :
    validBranchName "bad name!" = false ∧
    (parse_checkout_target "bad name!" = .error ParseErr.emptyTarget ∨
     parse_checkout_target "bad name!" = .error ParseErr.invalidChars ∨
     (∃ n, prNumberOf "bad name!" = some n ∧
       parse_checkout_target "bad name!" =
         .ok ("pr-" ++ n,
           { ref := "origin/pull/" ++ n ++ "/head", is_pr := true,
             remote := "origin", fetch_remote := false })) ∨
     (∃ user branch, splitOnChar ':' "bad name!".data = [user, branch] ∧
       validBranchChars user = true ∧ validBranchChars branch = true ∧
       parse_checkout_target "bad name!" =
         .ok (String.mk branch,
           { ref := String.mk branch, is_pr := false,
             remote := String.mk user, fetch_remote := true }))) :=
  ⟨by decide, checkout_target_parsing.2.2.2.2 "bad name!" (by decide)⟩

/-! ### C3 — removal of an untracked label -/

/-- C3: on an untracked label, `core.remove_session` exits with an error
and performs no teardown at all, while the legacy
`actions.remove_session_action` (and `test_core.test_remove_session_nonexistent`)
expect a warning plus best-effort stale cleanup of the conventionally
derived tmux session, worktree path and branch. -/
theorem remove_untracked_behavior :
    remove_session sampleEnv freshGlobalState "ghost" =
      ⟨freshGlobalState, [], false⟩ ∧
    remove_session_action sampleEnv freshGlobalState "ghost" =
      ⟨freshGlobalState,
       [Event.killTmuxSession "par-proj-abcd-ghost",
        Event.removeWorktree
          ["home", "u", ".local", "share", "par", "worktrees", "abcd1234", "ghost"]
          ["home", "u", "proj"],
        Event.deleteBranch "ghost" ["home", "u", "proj"]],
       true⟩ := by
  exact ⟨rfl, rfl⟩

/-! ### C1 — global label uniqueness -/

theorem trackedLabels_addSession (st : GlobalState) (s : SessionRecord)
    (h : validate_label_unique st s.label) :
    trackedLabels (addSession st s) = s.label :: trackedLabels st := by
  unfold trackedLabels addSession
  simp only
  rw [setA_eq_cons_of_not_mem h.1]
  simp [keysA]

theorem trackedLabels_update_last (st : GlobalState) (l : String) :
    trackedLabels (update_last_session st l) = trackedLabels st := rfl

/-- Each creation command leaves the tracked label set unchanged, or
prepends one label that was globally unique beforehand. -/
theorem applyCmd_tracked (env : Env) (st : GlobalState) (cmd : Cmd) :
    trackedLabels (applyCmd env st cmd).state = trackedLabels st ∨
    ∃ l, validate_label_unique st l ∧
      trackedLabels (applyCmd env st cmd).state = l :: trackedLabels st := by
  cases cmd with
  | start l rp o =>
    simp only [applyCmd]
    unfold start_session
    dsimp only
    by_cases hv : validate_label_unique st l
    · rw [if_neg (not_not_intro hv)]
      split
      · exact Or.inl rfl
      · split
        · exact Or.inl rfl
        · split
          · exact Or.inr ⟨l, hv, (trackedLabels_update_last _ _).trans
              (trackedLabels_addSession st _ hv)⟩
          · exact Or.inr ⟨l, hv, trackedLabels_addSession st _ hv⟩
    · rw [if_pos hv]
      exact Or.inl rfl
  | checkout t cl rp =>
    simp only [applyCmd]
    unfold checkout_session
    cases hp : parse_checkout_target t with
    | error e => exact Or.inl rfl
    | ok p =>
      obtain ⟨b, strat⟩ := p
      dsimp only
      by_cases hv : validate_label_unique st (cl.getD b)
      · rw [if_neg (not_not_intro hv)]
        split
        · exact Or.inl rfl
        · split
          · exact Or.inl rfl
          · exact Or.inr ⟨cl.getD b, hv, trackedLabels_addSession st _ hv⟩
      · rw [if_pos hv]
        exact Or.inl rfl
  | workspaceStart l wp rs o =>
    simp only [applyCmd]
    unfold start_workspace_session
    dsimp only
    by_cases hv : validate_label_unique st l
    · rw [if_neg (not_not_intro hv)]
      split
      · exact Or.inl rfl
      · split
        · exact Or.inl rfl
        · split
          · exact Or.inl rfl
          · split
            · exact Or.inl rfl
            · split
              · exact Or.inr ⟨l, hv, (trackedLabels_update_last _ _).trans
                  (trackedLabels_addSession st _ hv)⟩
              · exact Or.inr ⟨l, hv, trackedLabels_addSession st _ hv⟩
    · rw [if_pos hv]
      exact Or.inl rfl

/-- Any sequence of creation commands preserves global label uniqueness. -/
theorem runCmds_nodup (env : Env) (cmds : List Cmd) (st : GlobalState)
    (hst : (trackedLabels st).Nodup) :
    (trackedLabels (runCmds env st cmds)).Nodup := by
  induction cmds generalizing st with
  | nil => exact hst
  | cons c cs ih =>
    have hstep := applyCmd_tracked env st c
    have hnext : (trackedLabels (applyCmd env st c).state).Nodup := by
      rcases hstep with he | ⟨l, hv, he⟩
      · rw [he]; exact hst
      · rw [he]
        refine List.nodup_cons.mpr ⟨?_, hst⟩
        intro hmem
        rcases List.mem_append.mp hmem with h1 | h2
        · exact hv.1 h1
        · exact hv.2 h2
    exact ih _ hnext

/-- A creation command whose label is already tracked fails with no side
effect and no state mutation. -/
theorem applyCmd_duplicate (env : Env) (st : GlobalState) (cmd : Cmd) (l : String)
    (hl : cmdLabel cmd = some l) (hmem : l ∈ trackedLabels st) :
    applyCmd env st cmd = ⟨st, [], false⟩ := by
  have hv : ¬ validate_label_unique st l := by
    intro hv
    rcases List.mem_append.mp hmem with h | h
    · exact hv.1 h
    · exact hv.2 h
  cases cmd with
  | start l' rp o =>
    have hll : l' = l := by simpa [cmdLabel] using hl
    subst hll
    simp only [applyCmd]
    unfold start_session
    rw [if_pos hv]
  | checkout t cl rp =>
    simp only [applyCmd]
    unfold checkout_session
    cases hp : parse_checkout_target t with
    | error e => rfl
    | ok p =>
      obtain ⟨b, strat⟩ := p
      have hll : cl.getD b = l := by
        simp only [cmdLabel, hp] at hl
        exact Option.some.inj hl
      dsimp only
      rw [hll, if_pos hv]
  | workspaceStart l' wp rs o =>
    have hll : l' = l := by simpa [cmdLabel] using hl
    subst hll
    simp only [applyCmd]
    unfold start_workspace_session
    rw [if_pos hv]

/-- C1: from a state whose tracked labels are pairwise distinct, every
sequence of `start_session` / `checkout_session` /
`start_workspace_session` calls keeps all tracked labels (of any kind)
pairwise distinct, and any single call whose label is already tracked
fails with no external side effect and an unchanged persisted state. -/
theorem global_label_uniqueness (env : Env) (st : GlobalState)
    (hst : (trackedLabels st).Nodup) :
    (∀ cmds, (trackedLabels (runCmds env st cmds)).Nodup) ∧
    (∀ cmd l, cmdLabel cmd = some l → l ∈ trackedLabels st →
      applyCmd env st cmd = ⟨st, [], false⟩) :=
  ⟨fun cmds => runCmds_nodup env cmds st hst,
   fun cmd l hl hmem => applyCmd_duplicate env st cmd l hl hmem⟩

/-- C1 witness: the uniqueness statement evaluated on the sample state
(three tracked records with distinct labels). -/
theorem global_label_uniqueness_witness :
    (trackedLabels sampleState).Nodup ∧
    ((∀ cmds, (trackedLabels (runCmds sampleEnv sampleState cmds)).Nodup) ∧
     (∀ cmd l, cmdLabel cmd = some l → l ∈ trackedLabels sampleState →
       applyCmd sampleEnv sampleState cmd = ⟨sampleState, [], false⟩)) :=
  ⟨by decide, global_label_uniqueness sampleEnv sampleState (by decide)⟩

/-! ### C4 — validation order in workspace creation -/

/-- The side effects of one successful iteration of the per-member
worktree creation loop. -/
def member_create_events (env : Env) (workspace_root : PathT) (label : String)
    (m : String × PathT) : List Event :=
  let wtp := get_workspace_worktree_path env workspace_root label m.1
  Event.mkdirParents wtp.dropLast :: Event.createWorktree label wtp m.2 ::
  (if env.hasParConfig m.2 then [Event.copyIncludedFiles m.2 wtp] else [])

/-- The creation loop aborts at the first member whose worktree path
pre-exists, after having created the worktrees of all earlier members. -/
theorem create_workspace_worktrees_abort (env : Env) (workspace_root : PathT)
    (label : String) (pre : List (String × PathT)) (m : String × PathT)
    (post : List (String × PathT))
    (hpre : ∀ x ∈ pre,
      env.pathExists (get_workspace_worktree_path env workspace_root label x.1) = false)
    (hm : env.pathExists (get_workspace_worktree_path env workspace_root label m.1) = true) :
    create_workspace_worktrees env workspace_root label (pre ++ m :: post) =
      (none,
       pre.flatMap (member_create_events env workspace_root label) ++
         [Event.mkdirParents
           (get_workspace_worktree_path env workspace_root label m.1).dropLast]) := by
  induction pre with
  | nil =>
    simp only [List.nil_append, List.flatMap_nil]
    unfold create_workspace_worktrees
    dsimp only
    rw [hm]
    simp
  | cons x pre ih =>
    have hx := hpre x (List.mem_cons_self x pre)
    have hrest : ∀ y ∈ pre,
        env.pathExists (get_workspace_worktree_path env workspace_root label y.1) = false :=
      fun y hy => hpre y (List.mem_cons_of_mem x hy)
    simp only [List.cons_append]
    unfold create_workspace_worktrees
    dsimp only
    rw [hx]
    simp only [Bool.false_eq_true, if_false]
    rw [ih hrest]
    simp [member_create_events, List.flatMap_cons, List.append_assoc]

/-- C4 (amended): the worktree-path pre-existence check of each member is
interleaved with creation: when the first offending member is `m`, the
operation fails with the persisted state unchanged and no multiplexer
session created, but with one worktree already created per member before
`m` (and the parent-directory creation for `m`); when `m` is the first
member, no worktree has been created at all. -/
theorem workspace_validation_interleaved (env : Env) (st : GlobalState)
    (label : String) (ws : PathT) (s0 : RepoSpec) (specs : List RepoSpec)
    (members pre post : List (String × PathT)) (m : String × PathT)
    (hv : validate_label_unique st label)
    (hws : env.pathExists ws = true)
    (hspecs : resolveRepoSpecs env ws (s0 :: specs) = some members)
    (hmem : members = pre ++ m :: post)
    (hpre : ∀ x ∈ pre,
      env.pathExists (get_workspace_worktree_path env ws label x.1) = false)
    (hm : env.pathExists (get_workspace_worktree_path env ws label m.1) = true)
    (htmux : env.tmuxHas (get_workspace_session_name env ws label) = false) :
    start_workspace_session env st label (some ws) (some (s0 :: specs)) false =
      ⟨st,
       pre.flatMap (member_create_events env ws label) ++
         [Event.mkdirParents
           (get_workspace_worktree_path env ws label m.1).dropLast],
       false⟩ ∧
    (∀ n cwd, Event.createTmuxSession n cwd ∉
      pre.flatMap (member_create_events env ws label) ++
        [Event.mkdirParents
          (get_workspace_worktree_path env ws label m.1).dropLast]) := by
  constructor
  · unfold start_workspace_session
    dsimp only
    rw [if_neg (not_not_intro hv), hws]
    simp only [if_true]
    rw [hspecs]
    dsimp only
    rw [htmux]
    simp only [Bool.false_eq_true, if_false]
    rw [hmem, create_workspace_worktrees_abort env ws label pre m post hpre hm]
  · intro n cwd hmemb
    rcases List.mem_append.mp hmemb with h1 | h2
    · rw [List.mem_flatMap] at h1
      rcases h1 with ⟨x, _, hx⟩
      unfold member_create_events at hx
      rcases List.mem_cons.mp hx with h3 | h4
      · simp at h3
      · rcases List.mem_cons.mp h4 with h5 | h6
        · simp at h5
        · by_cases hc : env.hasParConfig x.2 = true
          · rw [if_pos hc] at h6; simp at h6
          · rw [if_neg hc] at h6; simp at h6
    · simp at h2

/-- A concrete two-member workspace environment in which the second
member's worktree path already exists. -/
def envC4 : Env where
  dataDir := ["dd"]
  cwd := ["ws"]
  pathExists := fun p =>
    (([["ws"], ["ws", "r1"], ["ws", "r1", ".git"], ["ws", "r2"],
       ["ws", "r2", ".git"], ["dd", "workspaces", "abcd1234", "L", "r2"]] :
      List PathT).contains p)
  tmuxHas := fun _ => false
  hash8 := fun _ => "abcd1234"
  hasParConfig := fun _ => false
  detectGitRepos := fun _ => []
  repoRootOf := fun _ => ["ws"]
  rmtreeFails := fun _ => false

/-- C4 counterexample: with two member repositories and only the second
member's worktree path pre-existing, the whole operation fails — but the
first member's worktree has already been created, refuting "no worktree
created for any member". -/
theorem workspace_validation_counterexample :
    (start_workspace_session envC4 freshGlobalState "L" (some ["ws"])
        (some [.rel "r1", .rel "r2"]) false).outcome = false ∧
    (start_workspace_session envC4 freshGlobalState "L" (some ["ws"])
        (some [.rel "r1", .rel "r2"]) false).state = freshGlobalState ∧
    Event.createWorktree "L" ["dd", "workspaces", "abcd1234", "L", "r1"] ["ws", "r1"]
      ∈ (start_workspace_session envC4 freshGlobalState "L" (some ["ws"])
          (some [.rel "r1", .rel "r2"]) false).events := by
  refine ⟨rfl, rfl, ?_⟩
  decide

/-- C4 witness: the amended statement evaluated on the concrete
two-member environment. -/
theorem workspace_validation_interleaved_witness :
    (start_workspace_session envC4 freshGlobalState "L" (some ["ws"])
        (some [.rel "r1", .rel "r2"]) false =
      ⟨freshGlobalState,
       [("r1", ["ws", "r1"])].flatMap (member_create_events envC4 ["ws"] "L") ++
         [Event.mkdirParents
           (get_workspace_worktree_path envC4 ["ws"] "L" "r2").dropLast],
       false⟩) ∧
    (∀ n cwd, Event.createTmuxSession n cwd ∉
      [("r1", ["ws", "r1"])].flatMap (member_create_events envC4 ["ws"] "L") ++
        [Event.mkdirParents
          (get_workspace_worktree_path envC4 ["ws"] "L" "r2").dropLast]) :=
  workspace_validation_interleaved envC4 freshGlobalState "L" ["ws"]
    (.rel "r1") [.rel "r2"]
    [("r1", ["ws", "r1"]), ("r2", ["ws", "r2"])]
    [("r1", ["ws", "r1"])] [] ("r2", ["ws", "r2"])
    (by decide) (by decide) (by decide) rfl
    (by decide) (by decide) (by decide)

/-! ### C2 — atomic persistence -/

/-- The full serialised document: the concatenation of the streamed
chunks. -/
def concatChunks (chunks : List String) : String :=
  chunks.foldr (· ++ ·) ""

theorem applyFsOps_append (fs : FS) (a b : List FsOp) :
    applyFsOps fs (a ++ b) = applyFsOps (applyFsOps fs a) b :=
  List.foldl_append _ _ _ _

theorem getA_applyFsOps_preserved (q : PathT) (ops : List FsOp) (fs : FS)
    (h : ∀ op ∈ ops, ∀ fs', getA (applyFsOp fs' op) q = getA fs' q) :
    getA (applyFsOps fs ops) q = getA fs q := by
  induction ops generalizing fs with
  | nil => rfl
  | cons op rest ih =>
    have hstep : applyFsOps fs (op :: rest) = applyFsOps (applyFsOp fs op) rest := rfl
    rw [hstep, ih _ (fun o ho fs' => h o (List.mem_cons_of_mem _ ho) fs')]
    exact h op (List.mem_cons_self _ _) fs

/-- Writing the chunk stream into an open file appends their
concatenation. -/
theorem getA_writeChunks (tmp : PathT) (cs : List String) (fs : FS) (acc : String)
    (h : getA fs tmp = some acc) :
    getA (applyFsOps fs (cs.map (FsOp.writeChunk tmp))) tmp
      = some (acc ++ concatChunks cs) := by
  induction cs generalizing fs acc with
  | nil =>
    simpa [concatChunks] using h
  | cons c cs ih =>
    have hstep : getA (applyFsOp fs (FsOp.writeChunk tmp c)) tmp = some (acc ++ c) := by
      simp [applyFsOp, h]
    have hfold : applyFsOps fs ((c :: cs).map (FsOp.writeChunk tmp)) =
        applyFsOps (applyFsOp fs (FsOp.writeChunk tmp c)) (cs.map (FsOp.writeChunk tmp)) := rfl
    rw [hfold, ih _ _ hstep]
    simp [concatChunks, String.append_assoc]

theorem prefix_append_cases {γ : Type} {l a b : List γ} (h : l <+: a ++ b) :
    l <+: a ∨ ∃ t, l = a ++ t ∧ t <+: b := by
  obtain ⟨r, hr⟩ := h
  rcases List.append_eq_append_iff.mp hr with ⟨a', ha, _⟩ | ⟨c', hc, hd⟩
  · exact Or.inl ⟨a', ha.symm⟩
  · exact Or.inr ⟨c', hc, ⟨r, hd.symm⟩⟩

theorem prefix_pair_cases {γ : Type} {t : List γ} {x y : γ} (h : t <+: [x, y]) :
    t = [] ∨ t = [x] ∨ t = [x, y] := by
  rcases t with _ | ⟨u, t⟩
  · exact Or.inl rfl
  · rw [List.cons_prefix_cons] at h
    obtain ⟨hu, ht⟩ := h
    subst hu
    rcases t with _ | ⟨v, t⟩
    · exact Or.inr (Or.inl rfl)
    · rw [List.cons_prefix_cons] at ht
      obtain ⟨hv, ht'⟩ := ht
      subst hv
      rcases List.prefix_nil.mp ht' with rfl
      exact Or.inr (Or.inr rfl)

/-- No step of the write phase touches the target file, so its content is
unchanged until the replace. -/
theorem manager_write_phase_preserves (fs : FS) (state_file : PathT)
    (chunks : List String) (hne : withSuffix state_file ".tmp" ≠ state_file)
    (pre' : List FsOp)
    (hsub : pre' ⊆ chunks.map (FsOp.writeChunk (withSuffix state_file ".tmp"))) :
    getA (applyFsOps fs (FsOp.openTrunc (withSuffix state_file ".tmp") :: pre'))
      state_file = getA fs state_file := by
  have hops : ∀ op ∈ FsOp.openTrunc (withSuffix state_file ".tmp") :: pre',
      ∀ fs', getA (applyFsOp fs' op) state_file = getA fs' state_file := by
    intro op hop fs'
    rcases List.mem_cons.mp hop with rfl | hmem
    · simp [applyFsOp, hne]
    · obtain ⟨c, _, rfl⟩ := List.mem_map.mp (hsub hmem)
      simp [applyFsOp, hne]
  exact getA_applyFsOps_preserved _ _ fs hops

/-- After the open-write phase the temporary file holds the complete
serialised document, and the replace transfers it onto the target. -/
theorem manager_save_after_replace (fs : FS) (state_file : PathT)
    (chunks : List String) (hne : withSuffix state_file ".tmp" ≠ state_file) :
    getA (applyFsOps fs
      (FsOp.openTrunc (withSuffix state_file ".tmp") ::
        chunks.map (FsOp.writeChunk (withSuffix state_file ".tmp")) ++
          [FsOp.rename (withSuffix state_file ".tmp") state_file])) state_file
      = some (concatChunks chunks) := by
  have h0 : getA (applyFsOp fs (FsOp.openTrunc (withSuffix state_file ".tmp")))
      (withSuffix state_file ".tmp") = some "" := by
    simp [applyFsOp]
  have htmp : getA (applyFsOps fs
      (FsOp.openTrunc (withSuffix state_file ".tmp") ::
        chunks.map (FsOp.writeChunk (withSuffix state_file ".tmp"))))
      (withSuffix state_file ".tmp") = some (concatChunks chunks) := by
    have hstep : applyFsOps fs
        (FsOp.openTrunc (withSuffix state_file ".tmp") ::
          chunks.map (FsOp.writeChunk (withSuffix state_file ".tmp"))) =
        applyFsOps (applyFsOp fs (FsOp.openTrunc (withSuffix state_file ".tmp")))
          (chunks.map (FsOp.writeChunk (withSuffix state_file ".tmp"))) := rfl
    rw [hstep, getA_writeChunks _ _ _ _ h0]
    simp
  have hsplit : (FsOp.openTrunc (withSuffix state_file ".tmp") ::
      chunks.map (FsOp.writeChunk (withSuffix state_file ".tmp")) ++
        [FsOp.rename (withSuffix state_file ".tmp") state_file]) =
      (FsOp.openTrunc (withSuffix state_file ".tmp") ::
        chunks.map (FsOp.writeChunk (withSuffix state_file ".tmp"))) ++
        [FsOp.rename (withSuffix state_file ".tmp") state_file] := rfl
  rw [hsplit, applyFsOps_append]
  have hone : ∀ fs' : FS, applyFsOps fs' [FsOp.rename (withSuffix state_file ".tmp") state_file] =
      delA (setA fs' state_file
        ((getA fs' (withSuffix state_file ".tmp")).getD ""))
        (withSuffix state_file ".tmp") := fun fs' => rfl
  rw [hone, getA_delA, if_neg hne, getA_setA, if_pos rfl, htmp]
  rfl

/-- C2 (amended): `StateManager.save` is atomic — after any prefix of its
on-disk steps, the target file holds either its previous content or the
complete serialised document, and the in-memory cache assignment only
ever appears after the atomic replace. (`core._save_global_state` does
not share this property, see the counterexample.) -/
theorem manager_save_atomic (fs : FS) (state_file : PathT) (chunks : List String)
    (hne : withSuffix state_file ".tmp" ≠ state_file)
    (pre : List FsOp) (hpre : pre <+: manager_save_ops state_file chunks) :
    (getA (applyFsOps fs pre) state_file = getA fs state_file ∨
      getA (applyFsOps fs pre) state_file = some (concatChunks chunks)) ∧
    (FsOp.cacheSet ∈ pre →
      FsOp.rename (withSuffix state_file ".tmp") state_file ∈ pre) := by
  unfold manager_save_ops at hpre
  dsimp only at hpre
  rw [List.cons_append] at hpre
  rcases pre with _ | ⟨p₀, pre'⟩
  · exact ⟨Or.inl rfl, by intro hcs; exact absurd hcs (by simp)⟩
  · rw [List.cons_prefix_cons] at hpre
    obtain ⟨hp₀, hpre'⟩ := hpre
    subst hp₀
    rcases prefix_append_cases hpre' with hA | ⟨t, hB, ht⟩
    · -- only the temporary file has been touched
      have hsub := hA.subset
      constructor
      · exact Or.inl (manager_write_phase_preserves fs state_file chunks hne pre' hsub)
      · intro hcs
        rcases List.mem_cons.mp hcs with hh | hmem
        · exact absurd hh (by simp)
        · obtain ⟨c, _, hc⟩ := List.mem_map.mp (hsub hmem)
          exact absurd hc (by simp)
    · -- the write phase is complete; the replace may have happened
      subst hB
      rcases prefix_pair_cases ht with rfl | rfl | rfl
      · rw [List.append_nil]
        constructor
        · exact Or.inl (manager_write_phase_preserves fs state_file chunks hne _
            (List.Subset.refl _))
        · intro hcs
          rcases List.mem_cons.mp hcs with hh | hmem
          · exact absurd hh (by simp)
          · obtain ⟨c, _, hc⟩ := List.mem_map.mp hmem
            exact absurd hc (by simp)
      · constructor
        · exact Or.inr (manager_save_after_replace fs state_file chunks hne)
        · intro _
          apply List.mem_cons_of_mem
          apply List.mem_append_right
          simp
      · constructor
        · refine Or.inr ?_
          have htrace : (FsOp.openTrunc (withSuffix state_file ".tmp") ::
              (chunks.map (FsOp.writeChunk (withSuffix state_file ".tmp")) ++
                [FsOp.rename (withSuffix state_file ".tmp") state_file, FsOp.cacheSet])) =
              (FsOp.openTrunc (withSuffix state_file ".tmp") ::
                chunks.map (FsOp.writeChunk (withSuffix state_file ".tmp")) ++
                  [FsOp.rename (withSuffix state_file ".tmp") state_file]) ++
                [FsOp.cacheSet] := by simp
          rw [htrace, applyFsOps_append]
          exact manager_save_after_replace fs state_file chunks hne
        · intro _
          apply List.mem_cons_of_mem
          apply List.mem_append_right
          simp

/-- C2 counterexample: `core._save_global_state` writes the global state
file in place; interrupted after its first chunk, a subsequent read of
the file sees neither the previous document (`OLD`) nor the complete new
one (`ABCD`) — the path persisting the global state file is not atomic. -/
theorem global_save_not_atomic :
    ((save_global_state_ops ["par", "global_state.json"] ["AB", "CD"]).take 2 <+:
        save_global_state_ops ["par", "global_state.json"] ["AB", "CD"]) ∧
    getA (applyFsOps [(["par", "global_state.json"], "OLD")]
        ((save_global_state_ops ["par", "global_state.json"] ["AB", "CD"]).take 2))
        ["par", "global_state.json"] = some "AB" ∧
    ¬ (getA (applyFsOps [(["par", "global_state.json"], "OLD")]
          ((save_global_state_ops ["par", "global_state.json"] ["AB", "CD"]).take 2))
          ["par", "global_state.json"] =
        getA [(["par", "global_state.json"], "OLD")] ["par", "global_state.json"] ∨
      getA (applyFsOps [(["par", "global_state.json"], "OLD")]
          ((save_global_state_ops ["par", "global_state.json"] ["AB", "CD"]).take 2))
          ["par", "global_state.json"] =
        some (concatChunks ["AB", "CD"])) :=
  ⟨List.take_prefix _ _, by decide, by decide⟩

/-- C2 witness: the atomicity statement evaluated on a concrete
interrupted prefix of a `StateManager.save`. -/
theorem manager_save_atomic_witness :
    (withSuffix ["par", "state.json"] ".tmp" ≠ ["par", "state.json"]) ∧
    (((manager_save_ops ["par", "state.json"] ["AB", "CD"]).take 2) <+:
        manager_save_ops ["par", "state.json"] ["AB", "CD"]) ∧
    ((getA (applyFsOps [(["par", "state.json"], "OLD")]
          ((manager_save_ops ["par", "state.json"] ["AB", "CD"]).take 2))
          ["par", "state.json"] =
        getA [(["par", "state.json"], "OLD")] ["par", "state.json"] ∨
      getA (applyFsOps [(["par", "state.json"], "OLD")]
          ((manager_save_ops ["par", "state.json"] ["AB", "CD"]).take 2))
          ["par", "state.json"] = some (concatChunks ["AB", "CD"])) ∧
      (FsOp.cacheSet ∈ (manager_save_ops ["par", "state.json"] ["AB", "CD"]).take 2 →
        FsOp.rename (withSuffix ["par", "state.json"] ".tmp") ["par", "state.json"]
          ∈ (manager_save_ops ["par", "state.json"] ["AB", "CD"]).take 2)) :=
  ⟨by decide, List.take_prefix _ _,
   manager_save_atomic [(["par", "state.json"], "OLD")] ["par", "state.json"]
     ["AB", "CD"] (by decide) _ (List.take_prefix _ _)⟩

/-! ### C6 — control-center reconciliation -/

theorem applyWinEvents_winappend (ws : List Window) (a b : List WinEvent) :
    applyWinEvents ws (a ++ b) = applyWinEvents (applyWinEvents ws a) b :=
  List.foldl_append _ _ _ _

/-- A run of kill events removes exactly the windows whose index is
killed. -/
theorem applyWinEvents_kills (sn : String) (idxs : List Nat) (ws : List Window) :
    applyWinEvents ws (idxs.map (WinEvent.killWindow sn)) =
      ws.filter (fun w => !(decide (w.1 ∈ idxs))) := by
  induction idxs generalizing ws with
  | nil => simp [applyWinEvents]
  | cons i idxs ih =>
    have hstep : applyWinEvents ws ((i :: idxs).map (WinEvent.killWindow sn)) =
        applyWinEvents (ws.filter (fun w => !(decide (w.1 = i))))
          (idxs.map (WinEvent.killWindow sn)) := rfl
    rw [hstep, ih, List.filter_filter]
    apply List.filter_congr
    intro w _
    by_cases h1 : w.1 = i <;> by_cases h2 : w.1 ∈ idxs <;> simp [h1, h2]

/-- Keys after a dict assignment: the assigned key plus the old keys. -/
theorem mem_keysA_setA {κ : Type} [DecidableEq κ] {α : Type}
    (d : List (κ × α)) (k k' : κ) (v : α) :
    k' ∈ keysA (setA d k v) ↔ k' = k ∨ k' ∈ keysA d := by
  constructor
  · intro hmem
    rcases List.mem_map.mp hmem with ⟨p, hp, rfl⟩
    rcases List.mem_cons.mp hp with rfl | hp'
    · exact Or.inl rfl
    · exact Or.inr (List.mem_map_of_mem Prod.fst (List.mem_of_mem_filter hp'))
  · rintro (rfl | hmem)
    · exact List.mem_map_of_mem Prod.fst (List.mem_cons_self _ _)
    · by_cases h : k' = k
      · subst h
        exact List.mem_map_of_mem Prod.fst (List.mem_cons_self _ _)
      · rcases List.mem_map.mp hmem with ⟨p, hp, rfl⟩
        refine List.mem_map_of_mem Prod.fst ?_
        exact List.mem_cons_of_mem _ (List.mem_filter.mpr ⟨hp, by simp [h]⟩)

/-- The name-keyed dict's key set is exactly the set of window names
(duplicates collapse but membership is preserved). -/
theorem mem_keys_window_dict (ws : List Window) (n : String) :
    n ∈ keysA (window_dict ws) ↔ n ∈ ws.map Prod.snd := by
  suffices h : ∀ (l : List Window) (d : List (String × Nat)),
      n ∈ keysA (l.foldl (fun d w => setA d w.2 w.1) d) ↔
        n ∈ keysA d ∨ n ∈ l.map Prod.snd by
    simpa [window_dict, keysA] using h ws []
  intro l
  induction l with
  | nil => intro d; simp
  | cons w l ih =>
    intro d
    have hstep : (w :: l).foldl (fun d w => setA d w.2 w.1) d =
        l.foldl (fun d w => setA d w.2 w.1) (setA d w.2 w.1) := rfl
    rw [hstep, ih, mem_keysA_setA]
    simp only [List.map_cons, List.mem_cons]
    tauto

/-- Every dict entry's key is the name of some enumerated window. -/
theorem mem_window_dict_fst (ws : List Window) (p : String × Nat)
    (h : p ∈ window_dict ws) : p.1 ∈ ws.map Prod.snd :=
  (mem_keys_window_dict ws p.1).mp (List.mem_map_of_mem Prod.fst h)

/-- With pairwise-distinct window names the dict collapse is lossless:
the dict holds one entry per window. -/
theorem window_dict_eq_reverse (ws : List Window)
    (hnames : (ws.map Prod.snd).Nodup) :
    window_dict ws = (ws.map (fun w => (w.2, w.1))).reverse := by
  suffices h : ∀ (l : List Window) (d : List (String × Nat)),
      (l.map Prod.snd).Nodup → (∀ w ∈ l, w.2 ∉ keysA d) →
      l.foldl (fun d w => setA d w.2 w.1) d =
        (l.map (fun w => (w.2, w.1))).reverse ++ d by
    simpa [window_dict] using h ws [] hnames (by simp [keysA])
  intro l
  induction l with
  | nil => intro d _ _; simp
  | cons w l ih =>
    intro d hnd hfresh
    have hhead : w.2 ∉ l.map Prod.snd :=
      (List.nodup_cons.mp (by simpa using hnd)).1
    have htail : (l.map Prod.snd).Nodup :=
      (List.nodup_cons.mp (by simpa using hnd)).2
    have hset : setA d w.2 w.1 = (w.2, w.1) :: d :=
      setA_eq_cons_of_not_mem (hfresh w (List.mem_cons_self _ _)) _
    have hstep : (w :: l).foldl (fun d w => setA d w.2 w.1) d =
        l.foldl (fun d w => setA d w.2 w.1) (setA d w.2 w.1) := rfl
    have hfresh' : ∀ w' ∈ l, w'.2 ∉ keysA ((w.2, w.1) :: d) := by
      intro w' hw' hmem
      rcases List.mem_cons.mp hmem with he | hmem'
      · have he' : w'.2 = w.2 := he
        exact hhead (he' ▸ List.mem_map_of_mem Prod.snd hw')
      · exact hfresh w' (List.mem_cons_of_mem _ hw') hmem'
    rw [hstep, hset, ih ((w.2, w.1) :: d) htail hfresh']
    simp

/-- The kill phase of the reconciler, fed from the name-keyed dict,
leaves exactly the windows whose names are desired — provided window
indices are distinct (tmux guarantees this) and window names are
distinct (so the dict collapse loses nothing). -/
theorem reconcile_kill_phase (sn : String) (current : List Window)
    (names : List String) (hidx : (current.map Prod.fst).Nodup)
    (hnames : (current.map Prod.snd).Nodup) :
    applyWinEvents current
      (((window_dict current).filter (fun p => !(decide (p.1 ∈ names)))).map
        (fun p => WinEvent.killWindow sn p.2)) =
      current.filter (fun w => decide (w.2 ∈ names)) := by
  have hdict := window_dict_eq_reverse current hnames
  have hmap : ((window_dict current).filter (fun p => !(decide (p.1 ∈ names)))).map
      (fun p => WinEvent.killWindow sn p.2) =
      (((window_dict current).filter (fun p => !(decide (p.1 ∈ names)))).map
        Prod.snd).map (WinEvent.killWindow sn) := by
    rw [List.map_map]; rfl
  rw [hmap, applyWinEvents_kills]
  apply List.filter_congr
  intro w hw
  have hiff : w.1 ∈ ((window_dict current).filter
      (fun p => !(decide (p.1 ∈ names)))).map Prod.snd ↔
      ∃ w' ∈ current, w'.2 ∉ names ∧ w'.1 = w.1 := by
    rw [hdict]
    constructor
    · intro hmem
      rcases List.mem_map.mp hmem with ⟨p, hp, hsnd⟩
      have hpmem := List.mem_of_mem_filter hp
      have hbad := (List.mem_filter.mp hp).2
      rw [List.mem_reverse] at hpmem
      rcases List.mem_map.mp hpmem with ⟨w', hw', rfl⟩
      exact ⟨w', hw', by simpa using hbad, hsnd⟩
    · rintro ⟨w', hw', hbad, hfst⟩
      refine List.mem_map.mpr ⟨(w'.2, w'.1), ?_, hfst⟩
      refine List.mem_filter.mpr ⟨?_, by simpa using hbad⟩
      rw [List.mem_reverse]
      exact List.mem_map_of_mem _ hw'
  by_cases hdes : w.2 ∈ names
  · have hnot : w.1 ∉ ((window_dict current).filter
        (fun p => !(decide (p.1 ∈ names)))).map Prod.snd := by
      rw [hiff]
      rintro ⟨w', hw', hbad, hfst⟩
      have heq : w' = w := List.inj_on_of_nodup_map hidx hw' hw hfst
      rw [heq] at hbad
      exact hbad hdes
    simp [hdes, hnot]
  · have hin : w.1 ∈ ((window_dict current).filter
        (fun p => !(decide (p.1 ∈ names)))).map Prod.snd :=
      hiff.mpr ⟨w, hw, hdes, rfl⟩
    simp [hdes, hin]

/-- New-window events append exactly their names. -/
theorem applyWinEvents_news_snd (sn : String) (ctxs : List Context)
    (ws : List Window) :
    (applyWinEvents ws
      (ctxs.map (fun c => WinEvent.newWindow sn c.name c.path))).map Prod.snd =
      ws.map Prod.snd ++ ctxs.map Context.name := by
  induction ctxs generalizing ws with
  | nil => simp [applyWinEvents]
  | cons c cs ih =>
    have hstep : applyWinEvents ws
        ((c :: cs).map (fun c => WinEvent.newWindow sn c.name c.path)) =
        applyWinEvents (ws ++ [(freshIndex ws, c.name)])
          (cs.map (fun c => WinEvent.newWindow sn c.name c.path)) := rfl
    rw [hstep, ih]
    simp

/-- New-window events never remove an existing window. -/
theorem mem_applyWinEvents_news (sn : String) (ctxs : List Context)
    (ws : List Window) (w : Window) (hw : w ∈ ws) :
    w ∈ applyWinEvents ws
      (ctxs.map (fun c => WinEvent.newWindow sn c.name c.path)) := by
  induction ctxs generalizing ws with
  | nil => exact hw
  | cons c cs ih => exact ih _ (List.mem_append_left _ hw)

theorem map_snd_filter_names (l : List Window) (names : List String) :
    (l.filter (fun w => decide (w.2 ∈ names))).map Prod.snd =
      (l.map Prod.snd).filter (fun n => decide (n ∈ names)) := by
  induction l with
  | nil => rfl
  | cons w l ih =>
    by_cases h : w.2 ∈ names <;> simp [h, ih]

theorem map_name_filter_new (ctxs : List Context) (curNames : List String) :
    (ctxs.filter (fun c => !(decide (c.name ∈ curNames)))).map Context.name =
      (ctxs.map Context.name).filter (fun n => !(decide (n ∈ curNames))) := by
  induction ctxs with
  | nil => rfl
  | cons c l ih =>
    by_cases h : c.name ∈ curNames <;> simp [h, ih]

/-- A reconciliation pass whose kill and create sets are both empty
issues only the final select. -/
theorem update_control_center_windows_noop (sn : String) (ws : List Window)
    (contexts : List Context) (hemp : contexts.isEmpty = false)
    (hkills : (window_dict ws).filter
      (fun p => !(decide (p.1 ∈ contexts.map Context.name))) = [])
    (hnews : contexts.filter
      (fun c => !(decide (c.name ∈ keysA (window_dict ws)))) = []) :
    update_control_center_windows sn ws contexts = [WinEvent.selectFirst sn] := by
  unfold update_control_center_windows
  dsimp only
  rw [hemp, hkills, hnews]
  rfl

/-- C6 counterexample: the enumeration is collapsed into a name-keyed
dict, so with two windows both named `A` and desired set `{B}` the pass
kills only the dict's surviving index — a window named `A` is left alive
after one pass, and the second pass still kills a window, refuting the
claimed one-pass exactness and idempotence. -/
theorem control_center_duplicate_names :
    ("A" ∈ (applyWinEvents [(0, "A"), (1, "A")]
        (update_control_center_windows "control-center" [(0, "A"), (1, "A")]
          [⟨"B", ["pb"]⟩])).map Prod.snd) ∧
    ("A" ∉ ([⟨"B", ["pb"]⟩] : List Context).map Context.name) ∧
    WinEvent.killWindow "control-center" 0 ∈
      update_control_center_windows "control-center"
        (applyWinEvents [(0, "A"), (1, "A")]
          (update_control_center_windows "control-center" [(0, "A"), (1, "A")]
            [⟨"B", ["pb"]⟩]))
        [⟨"B", ["pb"]⟩] := by
  refine ⟨?_, ?_, ?_⟩ <;> decide

/-- C6 (amended): for an enumerable overview session whose window
indices *and window names* are pairwise distinct (so the source's
name-keyed dict collapse loses nothing) and a non-empty desired list,
one reconciliation pass (1) keeps exactly the current windows whose
names are desired and appends exactly one new window per desired name
not present, (2) leaves windows present on both sides untouched, (3)
converges the window name set to exactly the desired names, and (4) a
second pass with the same desired list issues no kill and no create —
only the final select. With duplicate window names the code kills at
most one window per undesired name (see the counterexample). -/
theorem control_center_reconciliation (sn : String) (current : List Window)
    (contexts : List Context)
    (hidx : (current.map Prod.fst).Nodup)
    (hnames : (current.map Prod.snd).Nodup) (hne : contexts ≠ []) :
    ((applyWinEvents current
        (update_control_center_windows sn current contexts)).map Prod.snd =
      (current.map Prod.snd).filter
        (fun n => decide (n ∈ contexts.map Context.name)) ++
      (contexts.map Context.name).filter
        (fun n => !(decide (n ∈ current.map Prod.snd)))) ∧
    (∀ w ∈ current, w.2 ∈ contexts.map Context.name →
      w ∈ applyWinEvents current
        (update_control_center_windows sn current contexts)) ∧
    (∀ n, n ∈ (applyWinEvents current
        (update_control_center_windows sn current contexts)).map Prod.snd ↔
      n ∈ contexts.map Context.name) ∧
    update_control_center_windows sn
      (applyWinEvents current (update_control_center_windows sn current contexts))
      contexts = [WinEvent.selectFirst sn] := by
  have hemp : contexts.isEmpty = false := by
    cases contexts with
    | nil => exact absurd rfl hne
    | cons c cs => rfl
  have hev : update_control_center_windows sn current contexts =
      ((((window_dict current).filter
          (fun p => !(decide (p.1 ∈ contexts.map Context.name)))).map
        (fun p => WinEvent.killWindow sn p.2)) ++
       (contexts.filter
          (fun c => !(decide (c.name ∈ keysA (window_dict current))))).map
        (fun c => WinEvent.newWindow sn c.name c.path)) ++
      [WinEvent.selectFirst sn] := by
    unfold update_control_center_windows
    rw [hemp]
    rfl
  have hnewsfix : contexts.filter
      (fun c => !(decide (c.name ∈ keysA (window_dict current)))) =
      contexts.filter (fun c => !(decide (c.name ∈ current.map Prod.snd))) := by
    apply List.filter_congr
    intro c _
    by_cases h : c.name ∈ current.map Prod.snd
    · simp [h, (mem_keys_window_dict current c.name).mpr h]
    · have hk : c.name ∉ keysA (window_dict current) :=
        fun hc => h ((mem_keys_window_dict current c.name).mp hc)
      simp [h, hk]
  have hfinal : applyWinEvents current
      (update_control_center_windows sn current contexts) =
      applyWinEvents
        (current.filter (fun w => decide (w.2 ∈ contexts.map Context.name)))
        ((contexts.filter
            (fun c => !(decide (c.name ∈ current.map Prod.snd)))).map
          (fun c => WinEvent.newWindow sn c.name c.path)) := by
    rw [hev, hnewsfix, applyWinEvents_winappend, applyWinEvents_winappend]
    rw [reconcile_kill_phase sn current (contexts.map Context.name) hidx hnames]
    rfl
  have hsnd : (applyWinEvents current
      (update_control_center_windows sn current contexts)).map Prod.snd =
      (current.map Prod.snd).filter
        (fun n => decide (n ∈ contexts.map Context.name)) ++
      (contexts.map Context.name).filter
        (fun n => !(decide (n ∈ current.map Prod.snd))) := by
    rw [hfinal, applyWinEvents_news_snd, map_snd_filter_names,
      map_name_filter_new]
  have hmem : ∀ n, n ∈ (applyWinEvents current
      (update_control_center_windows sn current contexts)).map Prod.snd ↔
      n ∈ contexts.map Context.name := by
    intro n
    rw [hsnd]
    constructor
    · intro hn
      rcases List.mem_append.mp hn with h1 | h2
      · exact of_decide_eq_true (List.mem_filter.mp h1).2
      · exact (List.mem_filter.mp h2).1
    · intro hn
      by_cases hcur : n ∈ current.map Prod.snd
      · exact List.mem_append_left _
          (List.mem_filter.mpr ⟨hcur, decide_eq_true hn⟩)
      · exact List.mem_append_right _
          (List.mem_filter.mpr ⟨hn, by simp [hcur]⟩)
  refine ⟨hsnd, ?_, hmem, ?_⟩
  · intro w hw hdes
    rw [hfinal]
    exact mem_applyWinEvents_news _ _ _ _
      (List.mem_filter.mpr ⟨hw, decide_eq_true hdes⟩)
  · have hkills : (window_dict (applyWinEvents current
        (update_control_center_windows sn current contexts))).filter
        (fun p => !(decide (p.1 ∈ contexts.map Context.name))) = [] := by
      rw [List.filter_eq_nil_iff]
      intro p hp
      have hdes : p.1 ∈ contexts.map Context.name :=
        (hmem p.1).mp (mem_window_dict_fst _ _ hp)
      simp [hdes]
    have hnews2 : contexts.filter
        (fun c => !(decide (c.name ∈ keysA (window_dict (applyWinEvents current
          (update_control_center_windows sn current contexts)))))) = [] := by
      rw [List.filter_eq_nil_iff]
      intro c hc
      have hin : c.name ∈ keysA (window_dict (applyWinEvents current
          (update_control_center_windows sn current contexts))) :=
        (mem_keys_window_dict _ _).mpr
          ((hmem c.name).mpr (List.mem_map_of_mem Context.name hc))
      simp [hin]
    exact update_control_center_windows_noop sn _ contexts hemp hkills hnews2

/-- C6 witness: the spec's own example — windows `{A, B}` with desired
set `{B, C}` — evaluated through the reconciliation statement. -/
theorem control_center_reconciliation_witness :
    (([(0, "A"), (1, "B")] : List Window).map Prod.fst).Nodup ∧
    (([(0, "A"), (1, "B")] : List Window).map Prod.snd).Nodup ∧
    ([⟨"B", ["pb"]⟩, ⟨"C", ["pc"]⟩] : List Context) ≠ [] ∧
    (((applyWinEvents [(0, "A"), (1, "B")]
        (update_control_center_windows "control-center" [(0, "A"), (1, "B")]
          [⟨"B", ["pb"]⟩, ⟨"C", ["pc"]⟩])).map Prod.snd =
      (([(0, "A"), (1, "B")] : List Window).map Prod.snd).filter
        (fun n => decide (n ∈ ([⟨"B", ["pb"]⟩, ⟨"C", ["pc"]⟩] : List Context).map Context.name)) ++
      (([⟨"B", ["pb"]⟩, ⟨"C", ["pc"]⟩] : List Context).map Context.name).filter
        (fun n => !(decide (n ∈ ([(0, "A"), (1, "B")] : List Window).map Prod.snd)))) ∧
    (∀ w ∈ ([(0, "A"), (1, "B")] : List Window),
      w.2 ∈ ([⟨"B", ["pb"]⟩, ⟨"C", ["pc"]⟩] : List Context).map Context.name →
      w ∈ applyWinEvents [(0, "A"), (1, "B")]
        (update_control_center_windows "control-center" [(0, "A"), (1, "B")]
          [⟨"B", ["pb"]⟩, ⟨"C", ["pc"]⟩])) ∧
    (∀ n, n ∈ (applyWinEvents [(0, "A"), (1, "B")]
        (update_control_center_windows "control-center" [(0, "A"), (1, "B")]
          [⟨"B", ["pb"]⟩, ⟨"C", ["pc"]⟩])).map Prod.snd ↔
      n ∈ ([⟨"B", ["pb"]⟩, ⟨"C", ["pc"]⟩] : List Context).map Context.name) ∧
    update_control_center_windows "control-center"
      (applyWinEvents [(0, "A"), (1, "B")]
        (update_control_center_windows "control-center" [(0, "A"), (1, "B")]
          [⟨"B", ["pb"]⟩, ⟨"C", ["pc"]⟩]))
      [⟨"B", ["pb"]⟩, ⟨"C", ["pc"]⟩] = [WinEvent.selectFirst "control-center"]) :=
  ⟨by decide, by decide, by decide,
   control_center_reconciliation "control-center" [(0, "A"), (1, "B")]
     [⟨"B", ["pb"]⟩, ⟨"C", ["pc"]⟩] (by decide) (by decide) (by decide)⟩


/-! ### C5 — corruption recovery -/

/-- C5 (amended): `StateManager.load` on a store whose file does not
parse never raises — it returns the empty document, copies the corrupt
file (bytes intact) to the fixed-name `.json.backup` sibling, and a
second load within the cache TTL without intervening writes serves the
cache and performs no further on-disk action, so exactly one backup is
ever written. `core._load_global_state` recovers with a fresh document
but creates no backup at all (see the counterexample). -/
theorem manager_load_corruption_recovery {Doc : Type}
    (parse : String → Option Doc) (emptyDoc : Doc) (cache_ttl : Nat)
    (state_file : PathT) (fs : FS) (raw : String) (now now' : Nat)
    (hfile : getA fs state_file = some raw)
    (hraw : trimStr raw ≠ "")
    (hparse : parse (trimStr raw) = none)
    (httl : now' - now < cache_ttl) :
    manager_load parse emptyDoc cache_ttl state_file fs ⟨none, 0⟩ now =
      (emptyDoc, ⟨some emptyDoc, now⟩,
       [FsOp.copyFile state_file (withSuffix state_file ".json.backup")]) ∧
    getA (applyFsOps fs
        [FsOp.copyFile state_file (withSuffix state_file ".json.backup")])
        (withSuffix state_file ".json.backup") = some raw ∧
    manager_load parse emptyDoc cache_ttl state_file
        (applyFsOps fs
          [FsOp.copyFile state_file (withSuffix state_file ".json.backup")])
        ⟨some emptyDoc, now⟩ now' =
      (emptyDoc, ⟨some emptyDoc, now⟩, []) := by
  refine ⟨?_, ?_, ?_⟩
  · unfold manager_load manager_load_disk
    dsimp only
    simp only [hfile]
    rw [if_neg hraw]
    simp only [hparse]
  · simp [applyFsOps, applyFsOp, hfile]
  · unfold manager_load
    dsimp only
    rw [if_pos httl]

/-- C5 counterexample: `core._load_global_state` on a corrupt global
state file warns and returns the fresh empty document, but performs no
on-disk action at all — the corrupt bytes are not copied aside. -/
theorem global_load_no_backup :
    load_global_state (fun _ => none) (fun _ => (freshGlobalState, []))
        ["par", "global_state.json"]
        [(["par", "global_state.json"], "not json")] =
      (freshGlobalState, []) := by
  rfl

/-- C5 witness: the recovery statement evaluated on a concrete corrupt
store file. -/
theorem manager_load_corruption_recovery_witness :
    (getA ([(["par", "state.json"], "not json")] : FS) ["par", "state.json"] =
        some "not json") ∧
    (trimStr "not json" ≠ "") ∧
    (11 - 10 < 30) ∧
    (manager_load (fun _ => (none : Option Nat)) 0 30 ["par", "state.json"]
        [(["par", "state.json"], "not json")] ⟨none, 0⟩ 10 =
      (0, ⟨some 0, 10⟩,
       [FsOp.copyFile ["par", "state.json"]
          (withSuffix ["par", "state.json"] ".json.backup")]) ∧
     getA (applyFsOps [(["par", "state.json"], "not json")]
        [FsOp.copyFile ["par", "state.json"]
           (withSuffix ["par", "state.json"] ".json.backup")])
        (withSuffix ["par", "state.json"] ".json.backup") = some "not json" ∧
     manager_load (fun _ => (none : Option Nat)) 0 30 ["par", "state.json"]
        (applyFsOps [(["par", "state.json"], "not json")]
          [FsOp.copyFile ["par", "state.json"]
             (withSuffix ["par", "state.json"] ".json.backup")])
        ⟨some 0, 10⟩ 11 =
      (0, ⟨some 0, 10⟩, [])) :=
  ⟨rfl, by decide, by decide,
   manager_load_corruption_recovery (fun _ => none) 0 30 ["par", "state.json"]
     [(["par", "state.json"], "not json")] "not json" 10 11 rfl (by decide) rfl
     (by decide)⟩

/-! ### C7 — branch ownership on teardown -/

/-- C7: removing a tracked record never deletes the branch of a
`checkout` record, always deletes the branch of a `session` record, and
for a `workspace` record deletes the label-named branch in every member
repository. -/
theorem removal_branch_ownership (env : Env) (st : GlobalState) (label : String)
    (s : SessionRecord) (h : getA st.sessions label = some s) :
    (s.session_type = .checkout →
      ∀ b r, Event.deleteBranch b r ∉ (remove_session env st label).events) ∧
    (s.session_type = .session →
      Event.deleteBranch s.branch_name s.repository_path
        ∈ (remove_session env st label).events) ∧
    (s.session_type = .workspace →
      ∀ e ∈ s.workspace_repos,
        Event.deleteBranch e.branch_name e.repo_path
          ∈ (remove_session env st label).events) := by
  have hev : (remove_session env st label).events =
      if s.session_type = .workspace then remove_workspace_session_events env s
      else remove_regular_session_events env s := by
    simp only [remove_session, h]
  refine ⟨?_, ?_, ?_⟩
  · intro hck b r
    rw [hev, if_neg (by simp [hck])]
    unfold remove_regular_session_events
    rw [if_neg (by simp [hck])]
    intro hmem
    rcases List.mem_append.mp hmem with h1 | h2
    · rcases List.mem_append.mp h1 with h3 | h4
      · simp at h3
      · simp at h4
    · by_cases hex : env.pathExists s.worktree_path ∧ inParents env.dataDir s.worktree_path
      · rw [if_pos hex] at h2; simp at h2
      · rw [if_neg hex] at h2; simp at h2
  · intro hs
    rw [hev, if_neg (by simp [hs])]
    unfold remove_regular_session_events
    rw [if_pos (by simp [hs])]
    apply List.mem_append_left
    apply List.mem_append_right
    simp
  · intro hw e he
    rw [hev, if_pos hw]
    unfold remove_workspace_session_events
    apply List.mem_cons_of_mem
    apply List.mem_append_left
    rw [List.mem_flatMap]
    exact ⟨e, he, by simp⟩

/-- C7 witness: the ownership statement evaluated on the sample state, at
a checkout record. -/
theorem removal_branch_ownership_witness :
    getA sampleState.sessions "co-1" = some sampleCheckout ∧
    ((sampleCheckout.session_type = .checkout →
      ∀ b r, Event.deleteBranch b r ∉ (remove_session sampleEnv sampleState "co-1").events) ∧
    (sampleCheckout.session_type = .session →
      Event.deleteBranch sampleCheckout.branch_name sampleCheckout.repository_path
        ∈ (remove_session sampleEnv sampleState "co-1").events) ∧
    (sampleCheckout.session_type = .workspace →
      ∀ e ∈ sampleCheckout.workspace_repos,
        Event.deleteBranch e.branch_name e.repo_path
          ∈ (remove_session sampleEnv sampleState "co-1").events)) :=
  ⟨rfl, removal_branch_ownership sampleEnv sampleState "co-1" sampleCheckout rfl⟩

/-! ### C8 — teardown completeness under partial state -/

/-- C8: removing a tracked label succeeds for every environment — in
particular when the tmux session or any other resource is already gone —
deleting the record and attempting every teardown step (kill the session,
remove the worktree(s), delete the par-owned branch(es)); no step's
failure aborts the rest, because each teardown call swallows its own
errors. -/
theorem removal_teardown_completeness (env : Env) (st : GlobalState)
    (label : String) (s : SessionRecord)
    (h : getA st.sessions label = some s) :
    (remove_session env st label).outcome = true ∧
    getA (remove_session env st label).state.sessions label = none ∧
    Event.killTmuxSession s.tmux_session_name
      ∈ (remove_session env st label).events ∧
    (s.session_type ≠ .workspace →
      Event.removeWorktree s.worktree_path s.repository_path
        ∈ (remove_session env st label).events) ∧
    (s.session_type = .workspace →
      ∀ e ∈ s.workspace_repos,
        Event.removeWorktree e.worktree_path e.repo_path
          ∈ (remove_session env st label).events) ∧
    (s.session_type = .session →
      Event.deleteBranch s.branch_name s.repository_path
        ∈ (remove_session env st label).events) ∧
    (s.session_type = .workspace →
      ∀ e ∈ s.workspace_repos,
        Event.deleteBranch e.branch_name e.repo_path
          ∈ (remove_session env st label).events) := by
  have hev : (remove_session env st label).events =
      if s.session_type = .workspace then remove_workspace_session_events env s
      else remove_regular_session_events env s := by
    simp only [remove_session, h]
  have hst : (remove_session env st label).state = delSession st label := by
    simp only [remove_session, h]
  have hout : (remove_session env st label).outcome = true := by
    simp only [remove_session, h]
  refine ⟨hout, ?_, ?_, ?_, ?_, ?_, ?_⟩
  · rw [hst]; simp [delSession]
  · rw [hev]
    by_cases hw : s.session_type = .workspace
    · rw [if_pos hw]
      unfold remove_workspace_session_events
      exact List.mem_cons_self _ _
    · rw [if_neg hw]
      unfold remove_regular_session_events
      apply List.mem_append_left
      apply List.mem_append_left
      simp
  · intro hw
    rw [hev, if_neg hw]
    unfold remove_regular_session_events
    apply List.mem_append_left
    apply List.mem_append_left
    simp
  · intro hw e he
    rw [hev, if_pos hw]
    unfold remove_workspace_session_events
    apply List.mem_cons_of_mem
    apply List.mem_append_left
    rw [List.mem_flatMap]
    exact ⟨e, he, by simp⟩
  · intro hs
    rw [hev, if_neg (by simp [hs])]
    unfold remove_regular_session_events
    rw [if_pos (by simp [hs])]
    apply List.mem_append_left
    apply List.mem_append_right
    simp
  · intro hw e he
    rw [hev, if_pos hw]
    unfold remove_workspace_session_events
    apply List.mem_cons_of_mem
    apply List.mem_append_left
    rw [List.mem_flatMap]
    exact ⟨e, he, by simp⟩

/-- C8 witness: removal of the sample workspace record in an environment
where the tmux session no longer exists still succeeds, deletes the
record, and attempts every member teardown. -/
theorem removal_teardown_completeness_witness :
    getA sampleState.sessions "ws-1" = some sampleWorkspace ∧
    ((remove_session sampleEnv sampleState "ws-1").outcome = true ∧
    getA (remove_session sampleEnv sampleState "ws-1").state.sessions "ws-1" = none ∧
    Event.killTmuxSession sampleWorkspace.tmux_session_name
      ∈ (remove_session sampleEnv sampleState "ws-1").events ∧
    (sampleWorkspace.session_type ≠ .workspace →
      Event.removeWorktree sampleWorkspace.worktree_path sampleWorkspace.repository_path
        ∈ (remove_session sampleEnv sampleState "ws-1").events) ∧
    (sampleWorkspace.session_type = .workspace →
      ∀ e ∈ sampleWorkspace.workspace_repos,
        Event.removeWorktree e.worktree_path e.repo_path
          ∈ (remove_session sampleEnv sampleState "ws-1").events) ∧
    (sampleWorkspace.session_type = .session →
      Event.deleteBranch sampleWorkspace.branch_name sampleWorkspace.repository_path
        ∈ (remove_session sampleEnv sampleState "ws-1").events) ∧
    (sampleWorkspace.session_type = .workspace →
      ∀ e ∈ sampleWorkspace.workspace_repos,
        Event.deleteBranch e.branch_name e.repo_path
          ∈ (remove_session sampleEnv sampleState "ws-1").events)) :=
  ⟨rfl, removal_teardown_completeness sampleEnv sampleState "ws-1" sampleWorkspace rfl⟩

/-! ### C10 — filesystem deletion guard -/

/-- C10: a recursive physical deletion (`shutil.rmtree`) is issued by a
removal only for a path that exists and has par's data directory among
its parents; a recorded directory outside the data directory is never
recursively deleted. -/
theorem removal_rmtree_guard (env : Env) (st : GlobalState) (label : String)
    (p : PathT) (h : Event.rmtree p ∈ (remove_session env st label).events) :
    env.pathExists p = true ∧ inParents env.dataDir p := by
  cases hs : getA st.sessions label with
  | none => simp [remove_session, hs] at h
  | some s =>
    have hev : (remove_session env st label).events =
        if s.session_type = .workspace then remove_workspace_session_events env s
        else remove_regular_session_events env s := by
      simp only [remove_session, hs]
    rw [hev] at h
    by_cases hw : s.session_type = .workspace
    · rw [if_pos hw] at h
      unfold remove_workspace_session_events at h
      rcases List.mem_cons.mp h with h1 | h2
      · simp at h1
      · rcases List.mem_append.mp h2 with h3 | h4
        · rw [List.mem_flatMap] at h3
          rcases h3 with ⟨e, _, hmem⟩
          simp at hmem
        · by_cases hex : env.pathExists s.repository_path ∧ inParents env.dataDir s.repository_path
          · rw [if_pos hex] at h4
            have hp : p = s.repository_path := by simpa using h4
            subst hp
            exact ⟨hex.1, hex.2⟩
          · rw [if_neg hex] at h4
            simp at h4
    · rw [if_neg hw] at h
      unfold remove_regular_session_events at h
      rcases List.mem_append.mp h with h1 | h2
      · rcases List.mem_append.mp h1 with h3 | h4
        · simp at h3
        · by_cases hck : s.session_type ≠ .checkout
          · rw [if_pos hck] at h4; simp at h4
          · rw [if_neg hck] at h4; simp at h4
      · by_cases hex : env.pathExists s.worktree_path ∧ inParents env.dataDir s.worktree_path
        · rw [if_pos hex] at h2
          have hp : p = s.worktree_path := by simpa using h2
          subst hp
          exact ⟨hex.1, hex.2⟩
        · rw [if_neg hex] at h2
          simp at h2

/-- C10 witness: in an environment where the sample worktree directory
exists, removal issues its `rmtree`, and the guard certifies the path is
under the data directory. -/
theorem removal_rmtree_guard_witness :
    Event.rmtree sampleSession.worktree_path
      ∈ (remove_session { sampleEnv with pathExists := fun _ => true }
          sampleState "feat-a").events ∧
    ({ sampleEnv with pathExists := fun _ => true } : Env).pathExists
        sampleSession.worktree_path = true ∧
    inParents ({ sampleEnv with pathExists := fun _ => true } : Env).dataDir
      sampleSession.worktree_path :=
  ⟨by decide,
   removal_rmtree_guard { sampleEnv with pathExists := fun _ => true }
     sampleState "feat-a" sampleSession.worktree_path (by decide)⟩

end Par
